import Mathlib

/-!
Verification of the Windows Search Index reconstructor
(dissect.target plugins: os/windows/searchindex.py and os/windows/search.py).

The Python sources are shallowly embedded below: dictionaries become
insertion-ordered association lists with replace-in-place semantics
(matching CPython dict assignment), fallible operations return
Except values (an error constructor per Python exception kind), and
the external dissect.sql page/cell capability is modelled by the
PageRead type following the interface contract of the spec.
-/

set_option maxRecDepth 4000

namespace SearchIdx

/-- Python exception kinds that the embedded code can raise. -/
inductive PyErr
  | valueError
  | typeError
  | indexError
  | attributeError
  | fileNotFound
  deriving DecidableEq, Repr

/-- A raw SQLite storage value, as surfaced by dissect.sql rows and cells. -/
inductive SVal
  | null
  | int (i : Int)
  | text (s : String)
  | blob (b : List Nat)
  deriving DecidableEq, Repr

/-- A property value after the datetime-decoding step of the searchindex
plugin (lines 285-292 and 355-363 of searchindex.py): either Python None,
a decoded Windows timestamp (kept as its 100ns tick count), or the raw
SQLite value untouched. -/
inductive DVal
  | vnone
  | vdt (ticks : Nat)
  | vraw (v : SVal)
  deriving DecidableEq, Repr

/-- Association-list lookup with the semantics of Python dict membership /
subscription: the first binding of the key wins (Python dicts never hold
duplicate keys, so on states built by the embedded code this is exact). -/
def dictGet? {α β : Type} [DecidableEq α] : List (α × β) → α → Option β
  | [], _ => none
  | (k, v) :: rest, key => if k = key then some v else dictGet? rest key

/-- Association-list assignment with CPython dict semantics: an existing
key is updated in place (its position is preserved), a new key is
appended at the end (insertion order). -/
def dictSet {α β : Type} [DecidableEq α] : List (α × β) → α → β → List (α × β)
  | [], key, val => [(key, val)]
  | (k, v) :: rest, key, val =>
    if k = key then (k, val) :: rest else (k, v) :: dictSet rest key val

/-- Python dict.get with a default. -/
def dictGetD {α β : Type} [DecidableEq α] (m : List (α × β)) (key : α) (dflt : β) : β :=
  (dictGet? m key).getD dflt

/-- Python dict union d1 | d2: right operand wins, new keys appended. -/
def dictMerge {α β : Type} [DecidableEq α] (m₁ m₂ : List (α × β)) : List (α × β) :=
  m₂.foldl (fun acc kv => dictSet acc kv.1 kv.2) m₁

/-- Keys of a Python dict, in insertion order. -/
def dictKeys {α β : Type} (m : List (α × β)) : List α := m.map Prod.fst

/-- The no-duplicate-keys invariant every Python dict satisfies. -/
def NodupKeys {α β : Type} (m : List (α × β)) : Prop := (dictKeys m).Nodup

/-- int.from_bytes(b, little): the first byte is least significant. -/
def intFromBytesLE : List Nat → Nat
  | [] => 0
  | byte :: rest => byte % 256 + 256 * intFromBytesLE rest

/-- Modelled from the spec: the largest 100ns tick count since 1601-01-01
that dissect.util.ts.wintimestamp can turn into a Python datetime
(datetime.max is year 9999); beyond it the call raises ValueError.
The exact bound is irrelevant to the claims, which only touch tick 0. -/
def winTsMaxTicks : Nat := 2650467743999999999

/-- Modelled from the spec: dissect.util.ts.wintimestamp. Windows
timestamp properties are little-endian 64-bit integers in 100ns ticks
since 1601-01-01; we represent the resulting datetime by its tick count
and raise ValueError outside the representable range. -/
def wintimestamp (ticks : Nat) : Except PyErr Nat :=
  if ticks ≤ winTsMaxTicks then .ok ticks else .error .valueError

/-- The null timestamp: 0 ticks, i.e. the 1601-01-01 epoch that an
absent or zero-length byte value decodes to. -/
def nullTimestampTicks : Nat := 0

/-- The WIN_DATETIME_FIELDS constant of searchindex.py. -/
def WIN_DATETIME_FIELDS : List String :=
  ["LastModified",
   "System_Search_GatherTime",
   "System_DateModified",
   "System_DateCreated",
   "System_DateAccessed",
   "System_ActivityHistory_EndTime",
   "System_ActivityHistory_StartTime"]

/-- The PROPSTORE_INCLUDE_COLUMNS constant of searchindex.py. -/
def PROPSTORE_INCLUDE_COLUMNS : List String :=
  ["WorkID",
   "System_Size",
   "System_DateModified",
   "System_DateCreated",
   "System_DateAccessed",
   "System_FileOwner",
   "System_ItemPathDisplay",
   "System_ItemType",
   "System_FileAttributes",
   "System_Search_AutoSummary",
   "System_Activity_ContentUri",
   "System_Activity_Description",
   "System_Activity_DisplayText",
   "System_ActivityHistory_StartTime",
   "System_ActivityHistory_EndTime",
   "System_ActivityHistory_AppId",
   "System_Author"]

/-- The FILES constant of searchindex.py: the database files the plugin
discovers (relative to the registry DataDirectory). -/
def FILES : List String :=
  ["Applications/Windows/Windows.edb",
   "Applications/Windows/Windows.db"]

/-- The value-decoding step shared by the base-aggregation loop
(searchindex.py lines 285-292) and the WAL-diff loop (lines 355-363):
for a Windows-datetime column a None value stays None, a byte value is
decoded with wintimestamp (a ValueError is swallowed to None), and any
other storage type raises TypeError out of int.from_bytes; for a
non-datetime column the raw value is kept (None staying None). -/
def decodePropValue (isDt : Bool) (v : SVal) : Except PyErr DVal :=
  if isDt then
    match v with
    | .null => .ok .vnone
    | .blob b =>
      match wintimestamp (intFromBytesLE b) with
      | .ok t => .ok (.vdt t)
      | .error _ => .ok .vnone
    | _ => .error .typeError
  else
    match v with
    | .null => .ok .vnone
    | v => .ok (.vraw v)

/-- The timestamp-decoding pattern of build_record (search.py lines
226-285): wintimestamp(int.from_bytes(values.get(key, b""), "little")).
An absent key falls back to the zero-length byte string; a present
non-bytes value makes int.from_bytes raise TypeError; wintimestamp
errors are not caught here. -/
def tsFromValues (values : List (String × SVal)) (key : String) : Except PyErr Nat :=
  match dictGetD values key (.blob []) with
  | .blob b => wintimestamp (intFromBytesLE b)
  | _ => .error .typeError

/-- C7: for every snapshot and Windows-timestamp property, a byte value
that is absent (build_record falls back to b"", the searchindex decoder
keeps None) or of zero length decodes to the null timestamp (0 ticks,
the 1601-01-01 epoch) and never raises. -/
theorem C7_null_timestamp_decode (values values₂ : List (String × SVal)) (key key₂ : String)
    (habsent : dictGet? values key = none)
    (hempty : dictGet? values₂ key₂ = some (.blob [])) :
    tsFromValues values key = .ok nullTimestampTicks ∧
    tsFromValues values₂ key₂ = .ok nullTimestampTicks ∧
    decodePropValue true .null = .ok .vnone ∧
    decodePropValue true (.blob []) = .ok (.vdt nullTimestampTicks) := by
  refine ⟨?_, ?_, rfl, rfl⟩
  · simp [tsFromValues, dictGetD, habsent, intFromBytesLE, wintimestamp, winTsMaxTicks,
      nullTimestampTicks]
  · simp [tsFromValues, dictGetD, hempty, intFromBytesLE, wintimestamp, winTsMaxTicks,
      nullTimestampTicks]

/-- Witness for C7 at concrete inputs. -/
theorem C7_null_timestamp_decode_witness :
    tsFromValues [] "System_DateModified" = .ok nullTimestampTicks ∧
    tsFromValues [("System_DateModified", .blob [])] "System_DateModified"
      = .ok nullTimestampTicks ∧
    decodePropValue true .null = .ok .vnone ∧
    decodePropValue true (.blob []) = .ok (.vdt nullTimestampTicks) := by
  have h := C7_null_timestamp_decode ([]) ([("System_DateModified", .blob [])])
    ("System_DateModified") ("System_DateModified") (by decide) (by decide)
  exact ⟨h.1, h.2.1, h.2.2.1, h.2.2.2⟩

/-- A cell of a SQLite page as exposed by dissect.sql: an ordered tuple
of decoded column values and a size indicator. Reading cell.values
raises NoCellData exactly when the size indicator is absent (a zero-size
or freed cell), per the page/cell reader contract of the spec. -/
structure Cell where
  values : List SVal
  size : Option Nat
  deriving DecidableEq, Repr

/-- The result of asking for a page: db.page(n) may return None
(missing), raise InvalidPageType (invalid), or yield a page with its
cells; the frame.page property behaves the same way. -/
inductive PageRead
  | missing
  | invalid
  | ok (cells : List Cell)
  deriving DecidableEq, Repr

/-- A WAL frame: (page_number, checkpoint-time page snapshot). -/
structure Frame where
  page_number : Nat
  page : PageRead
  deriving DecidableEq, Repr

/-- A WAL checkpoint: an index and its frames. -/
structure Checkpoint where
  index : Int
  frames : List Frame
  deriving DecidableEq, Repr

/-- The base-page side of get_changes_between_db_and_checkpoint:
a missing page or InvalidPageType gives the empty cell list; otherwise
each cell contributes its value tuple, with a size-less cell replaced by
the empty tuple (cell.values if cell.size is not None else []). -/
def dbCellValues : PageRead → List (List SVal)
  | .missing => []
  | .invalid => []
  | .ok cells => cells.map (fun c => if c.size.isSome then c.values else [])

/-- The checkpoint side: an invalid or missing frame page gives the
empty list (the InvalidPageType / AttributeError handlers), and a
NoCellData raised by any size-less cell discards the whole
comprehension ([cell.values for cell in checkpoint_page.cells()]). -/
def checkpointCellValues : PageRead → List (List SVal)
  | .missing => []
  | .invalid => []
  | .ok cells =>
    if cells.all (fun c => c.size.isSome) then cells.map (fun c => c.values) else []

/-- One frame of the differencer loop: the checkpoint cell values that
do not occur among the base-page cell values. -/
def diffFrame (db : Nat → PageRead) (frame : Frame) : List (List SVal) :=
  (checkpointCellValues frame.page).filter
    (fun v => decide (v ∉ dbCellValues (db frame.page_number)))

/-- The frame loop of get_changes_between_db_and_checkpoint, appending
each frame contribution in order. -/
def diffFrames (db : Nat → PageRead) : List Frame → List (List SVal)
  | [] => []
  | frame :: rest => diffFrame db frame ++ diffFrames db rest

/-- get_changes_between_db_and_checkpoint (searchindex.py lines 481-514,
duplicated in search.py lines 305-334): all changes between the base
database pages and a checkpoint. -/
def get_changes_between_db_and_checkpoint (db : Nat → PageRead) (checkpoint : Checkpoint) :
    List (List SVal) :=
  diffFrames db checkpoint.frames

/-- Two page reads that differ only by a permutation of their cells. -/
inductive PagePerm : PageRead → PageRead → Prop
  | missing : PagePerm .missing .missing
  | invalid : PagePerm .invalid .invalid
  | ok {l l' : List Cell} (h : l.Perm l') : PagePerm (.ok l) (.ok l')

/-- Two frames for the same page number whose cells are permuted. -/
def FramePerm (f f' : Frame) : Prop :=
  f.page_number = f'.page_number ∧ PagePerm f.page f'.page

theorem checkpointCellValues_perm {p p' : PageRead} (h : PagePerm p p') (v : List SVal) :
    v ∈ checkpointCellValues p ↔ v ∈ checkpointCellValues p' := by
  cases h with
  | missing => exact Iff.rfl
  | invalid => exact Iff.rfl
  | ok hperm =>
    rename_i l l'
    have hall : (l.all (fun c => c.size.isSome)) = (l'.all (fun c => c.size.isSome)) := by
      cases h1 : l.all (fun c => c.size.isSome) with
      | true =>
        symm
        rw [List.all_eq_true] at h1 ⊢
        intro x hx
        exact h1 x (hperm.mem_iff.mpr hx)
      | false =>
        symm
        rw [List.all_eq_false] at h1 ⊢
        obtain ⟨x, hx, hnx⟩ := h1
        exact ⟨x, hperm.mem_iff.mp hx, hnx⟩
    simp only [checkpointCellValues, hall]
    cases h2 : l'.all (fun c => c.size.isSome) with
    | true => simp [(hperm.map (fun c => c.values)).mem_iff]
    | false => simp

theorem dbCellValues_perm {p p' : PageRead} (h : PagePerm p p') (v : List SVal) :
    v ∈ dbCellValues p ↔ v ∈ dbCellValues p' := by
  cases h with
  | missing => exact Iff.rfl
  | invalid => exact Iff.rfl
  | ok hperm =>
    simpa [dbCellValues] using
      (hperm.map (fun c => if c.size.isSome then c.values else [])).mem_iff

theorem framePerm_mem_left {frames frames' : List Frame}
    (hfr : List.Forall₂ FramePerm frames frames') {f : Frame} (hf : f ∈ frames) :
    ∃ f' ∈ frames', f.page_number = f'.page_number ∧ PagePerm f.page f'.page := by
  induction hfr with
  | nil => cases hf
  | @cons a b l₁ l₂ hrel htail ih =>
    rcases hf with _ | ⟨_, hf⟩
    · exact ⟨b, List.mem_cons_self _ _, hrel.1, hrel.2⟩
    · obtain ⟨f', hmem, h⟩ := ih hf
      exact ⟨f', List.mem_cons_of_mem _ hmem, h⟩

theorem framePerm_mem_right {frames frames' : List Frame}
    (hfr : List.Forall₂ FramePerm frames frames') {f' : Frame} (hf' : f' ∈ frames') :
    ∃ f ∈ frames, f.page_number = f'.page_number ∧ PagePerm f.page f'.page := by
  induction hfr with
  | nil => cases hf'
  | @cons a b l₁ l₂ hrel htail ih =>
    rcases hf' with _ | ⟨_, hf'⟩
    · exact ⟨a, List.mem_cons_self _ _, hrel.1, hrel.2⟩
    · obtain ⟨f, hmem, h⟩ := ih hf'
      exact ⟨f, List.mem_cons_of_mem _ hmem, h⟩

theorem mem_diffFrames (db : Nat → PageRead) (frames : List Frame) (v : List SVal) :
    v ∈ diffFrames db frames ↔
      ∃ f ∈ frames, v ∈ checkpointCellValues f.page ∧ v ∉ dbCellValues (db f.page_number) := by
  induction frames with
  | nil => simp [diffFrames]
  | cons f rest ih =>
    simp only [diffFrames, List.mem_append, diffFrame, List.mem_filter, decide_eq_true_eq, ih,
      List.mem_cons]
    constructor
    · rintro (⟨h1, h2⟩ | ⟨g, hg, h1, h2⟩)
      · exact ⟨f, Or.inl rfl, h1, h2⟩
      · exact ⟨g, Or.inr hg, h1, h2⟩
    · rintro ⟨g, (rfl | hg), h1, h2⟩
      · exact Or.inl ⟨h1, h2⟩
      · exact Or.inr ⟨g, hg, h1, h2⟩

/-- C5: the WAL differencer output, viewed as a set of decoded row-value
tuples, is unchanged when the cells of any checkpoint frame page or of
any base page are permuted; membership in the diff depends only on a
tuple occurring on the checkpoint side of some frame while being absent
from the base page at that frame page number, so a tuple present on
both sides is excluded regardless of position. -/
theorem C5_differencer_order_insensitive (db db' : Nat → PageRead) (cp cp' : Checkpoint)
    (hdb : ∀ n, PagePerm (db n) (db' n))
    (hfr : List.Forall₂ FramePerm cp.frames cp'.frames) :
    (∀ v, v ∈ get_changes_between_db_and_checkpoint db cp ↔
        v ∈ get_changes_between_db_and_checkpoint db' cp') ∧
    (∀ v, v ∈ get_changes_between_db_and_checkpoint db cp ↔
        ∃ f ∈ cp.frames,
          v ∈ checkpointCellValues f.page ∧ v ∉ dbCellValues (db f.page_number)) := by
  constructor
  · intro v
    rw [get_changes_between_db_and_checkpoint, get_changes_between_db_and_checkpoint,
      mem_diffFrames, mem_diffFrames]
    constructor
    · rintro ⟨f, hf, h1, h2⟩
      obtain ⟨f', hf', hnum, hpg⟩ := framePerm_mem_left hfr hf
      refine ⟨f', hf', (checkpointCellValues_perm hpg v).mp h1, ?_⟩
      rw [← hnum]
      exact fun hc => h2 ((dbCellValues_perm (hdb f.page_number) v).mpr hc)
    · rintro ⟨f', hf', h1, h2⟩
      obtain ⟨f, hf, hnum, hpg⟩ := framePerm_mem_right hfr hf'
      refine ⟨f, hf, (checkpointCellValues_perm hpg v).mpr h1, ?_⟩
      rw [hnum]
      exact fun hc => h2 ((dbCellValues_perm (hdb f'.page_number) v).mp hc)
  · intro v
    exact mem_diffFrames db cp.frames v

/-- Witness for C5: a base page with two cells and a checkpoint frame
with the same two cells swapped; the diff set is invariant. -/
theorem C5_differencer_order_insensitive_witness :
    (∀ v, v ∈ get_changes_between_db_and_checkpoint
        (fun _ => .ok [⟨[.int 1], some 1⟩, ⟨[.int 2], some 1⟩])
        ⟨1, [⟨5, .ok [⟨[.int 2], some 1⟩, ⟨[.int 3], some 1⟩]⟩]⟩ ↔
      v ∈ get_changes_between_db_and_checkpoint
        (fun _ => .ok [⟨[.int 2], some 1⟩, ⟨[.int 1], some 1⟩])
        ⟨1, [⟨5, .ok [⟨[.int 3], some 1⟩, ⟨[.int 2], some 1⟩]⟩]⟩) ∧
    (∀ v, v ∈ get_changes_between_db_and_checkpoint
        (fun _ => .ok [⟨[.int 1], some 1⟩, ⟨[.int 2], some 1⟩])
        ⟨1, [⟨5, .ok [⟨[.int 2], some 1⟩, ⟨[.int 3], some 1⟩]⟩]⟩ ↔
      ∃ f ∈ [(⟨5, .ok [⟨[.int 2], some 1⟩, ⟨[.int 3], some 1⟩]⟩ : Frame)],
        v ∈ checkpointCellValues f.page ∧
        v ∉ dbCellValues ((fun _ => PageRead.ok [⟨[.int 1], some 1⟩, ⟨[.int 2], some 1⟩])
          f.page_number)) :=
  C5_differencer_order_insensitive
    (fun _ => .ok [⟨[.int 1], some 1⟩, ⟨[.int 2], some 1⟩])
    (fun _ => .ok [⟨[.int 2], some 1⟩, ⟨[.int 1], some 1⟩])
    ⟨1, [⟨5, .ok [⟨[.int 2], some 1⟩, ⟨[.int 3], some 1⟩]⟩]⟩
    ⟨1, [⟨5, .ok [⟨[.int 3], some 1⟩, ⟨[.int 2], some 1⟩]⟩]⟩
    (fun _ => PagePerm.ok (List.Perm.swap _ _ _))
    (List.Forall₂.cons ⟨rfl, PagePerm.ok (List.Perm.swap _ _ _)⟩ List.Forall₂.nil)

/-- One retained snapshot version of a WorkID: the property dict written
by the timeline loop of _get_sqlite_records, with its checkpointindex
stamp kept as a separate field (in the Python dict it lives under the
reserved key checkpointindex next to the property names). -/
structure SIVersion where
  props : List (String × DVal)
  checkpointindex : Int
  deriving DecidableEq, Repr

/-- The propstore_records dict: WorkID key (any SQLite value can end up
as a key via row[0] of a WAL diff row) to the append-only version list. -/
abbrev TimelineState := List (SVal × List SIVersion)

/-- propstore_records[w][-1][k] = v on one version dict. -/
def setProp (k : String) (v : DVal) (ver : SIVersion) : SIVersion :=
  { ver with props := dictSet ver.props k v }

/-- In-place mutation of the last element of a Python list (lst[-1]). -/
def updateLast {α : Type} (f : α → α) : List α → List α
  | [] => []
  | x :: rest =>
    match rest with
    | [] => [f x]
    | _ :: _ => x :: updateLast f rest

/-- The body of the WAL diff loop of _get_sqlite_records (lines 365-379)
for one resolved diff row: an unseen WorkID gets a fresh singleton
version list stamped with the current checkpoint index; otherwise, if
the most recent stamp is older than the current index the last version
is cloned, re-stamped and appended, and in every case the property
update lands on the (possibly new) last version. An empty version list
would make the Python [-1] subscript raise IndexError. -/
def applyDiffRow (c : Int) (s : TimelineState) (w : SVal) (k : String) (v : DVal) :
    Except PyErr TimelineState :=
  match dictGet? s w with
  | none => .ok (dictSet s w [⟨[(k, v)], c⟩])
  | some versions =>
    match versions.getLast? with
    | none => .error .indexError
    | some last =>
      if last.checkpointindex < c then
        .ok (dictSet s w
          (updateLast (setProp k v) (versions ++ [{ last with checkpointindex := c }])))
      else
        .ok (dictSet s w (updateLast (setProp k v) versions))

/-- The WAL diff loop over the resolved rows of one checkpoint, in
order. -/
def applyDiff (c : Int) (s : TimelineState) :
    List (SVal × String × DVal) → Except PyErr TimelineState
  | [] => .ok s
  | (w, k, v) :: rest =>
    match applyDiffRow c s w k v with
    | .error e => .error e
    | .ok s' => applyDiff c s' rest

/-- Resolution of one raw diff row (lines 350-363): row[1] must be a
ColumnID known to the metadata catalog or the row is skipped; then the
value row[2] is datetime-decoded when the column is a Windows datetime
field. A row too short for the subscripts raises IndexError. -/
def resolveRow (metadata : List (Int × String)) (row : List SVal) :
    Except PyErr (Option (SVal × String × DVal)) :=
  match row with
  | w :: cid :: rest =>
    match cid with
    | .int c =>
      match dictGet? metadata c with
      | none => .ok none
      | some column_name =>
        match rest with
        | [] => .error .indexError
        | v :: _ =>
          match decodePropValue (decide (column_name ∈ WIN_DATETIME_FIELDS)) v with
          | .error e => .error e
          | .ok dv => .ok (some (w, column_name, dv))
    | _ => .ok none
  | _ => .error .indexError

/-- The per-checkpoint loop of _get_sqlite_records (lines 350-379):
resolve each diff row and apply it, interleaved exactly as in the
source (continue on unknown columns, first exception wins). -/
def processCheckpointRows (metadata : List (Int × String)) (c : Int) (s : TimelineState) :
    List (List SVal) → Except PyErr TimelineState
  | [] => .ok s
  | row :: rest =>
    match resolveRow metadata row with
    | .error e => .error e
    | .ok none => processCheckpointRows metadata c s rest
    | .ok (some (w, k, v)) =>
      match applyDiffRow c s w k v with
      | .error e => .error e
      | .ok s' => processCheckpointRows metadata c s' rest

/-- Resolution of a whole diff, separated from application (the rows a
successful run of the loop actually applies, in order). -/
def resolveRows (metadata : List (Int × String)) :
    List (List SVal) → Except PyErr (List (SVal × String × DVal))
  | [] => .ok []
  | row :: rest =>
    match resolveRow metadata row with
    | .error e => .error e
    | .ok none => resolveRows metadata rest
    | .ok (some t) =>
      match resolveRows metadata rest with
      | .error e => .error e
      | .ok ts => .ok (t :: ts)

theorem dictGet?_dictSet_self {α β : Type} [DecidableEq α] (m : List (α × β)) (k : α) (v : β) :
    dictGet? (dictSet m k v) k = some v := by
  induction m with
  | nil => simp [dictGet?, dictSet]
  | cons e rest ih =>
    by_cases h : e.1 = k <;> simp [dictSet, dictGet?, h, ih]

theorem dictGet?_dictSet_ne {α β : Type} [DecidableEq α] (m : List (α × β)) {k k' : α}
    (v : β) (h : k' ≠ k) : dictGet? (dictSet m k v) k' = dictGet? m k' := by
  have hne : ¬ k = k' := fun hc => h hc.symm
  induction m with
  | nil => simp [dictGet?, dictSet, hne]
  | cons e rest ih =>
    by_cases he : e.1 = k
    · have hek : ¬ e.1 = k' := by rw [he]; exact hne
      simp [dictSet, dictGet?, he, hek, hne]
    · by_cases hek : e.1 = k' <;> simp [dictSet, dictGet?, he, hek, hne, h, ih]

theorem dictSet_dictSet_same {α β : Type} [DecidableEq α] (m : List (α × β)) (k : α)
    (v v' : β) : dictSet (dictSet m k v) k v' = dictSet m k v' := by
  induction m with
  | nil => simp [dictSet]
  | cons e rest ih =>
    by_cases h : e.1 = k <;> simp [dictSet, h, ih]

theorem dictSet_eq_self {α β : Type} [DecidableEq α] {m : List (α × β)} {k : α} {v : β}
    (h : dictGet? m k = some v) : dictSet m k v = m := by
  induction m with
  | nil => simp [dictGet?] at h
  | cons e rest ih =>
    by_cases he : e.1 = k
    · rw [dictGet?, if_pos he] at h
      cases h
      rw [dictSet, if_pos he]
    · rw [dictGet?, if_neg he] at h
      rw [dictSet, if_neg he, ih h]

theorem dictGet?_eq_none_iff {α β : Type} [DecidableEq α] (m : List (α × β)) (k : α) :
    dictGet? m k = none ↔ k ∉ dictKeys m := by
  induction m with
  | nil => simp [dictGet?, dictKeys]
  | cons e rest ih =>
    by_cases he : e.1 = k
    all_goals simp [dictGet?, dictKeys, he, ih]
    tauto

theorem dictKeys_dictSet_of_present {α β : Type} [DecidableEq α] {m : List (α × β)} {k : α}
    (v : β) (h : dictGet? m k ≠ none) : dictKeys (dictSet m k v) = dictKeys m := by
  induction m with
  | nil => simp [dictGet?] at h
  | cons e rest ih =>
    by_cases he : e.1 = k
    · simp [dictSet, dictKeys, he]
    · rw [dictGet?, if_neg he] at h
      simp only [dictSet, if_neg he, dictKeys, List.map_cons]
      rw [show List.map Prod.fst (dictSet rest k v) = dictKeys (dictSet rest k v) from rfl,
        ih h]
      rfl

theorem dictKeys_dictSet_of_absent {α β : Type} [DecidableEq α] {m : List (α × β)} {k : α}
    (v : β) (h : dictGet? m k = none) : dictKeys (dictSet m k v) = dictKeys m ++ [k] := by
  induction m with
  | nil => simp [dictSet, dictKeys]
  | cons e rest ih =>
    by_cases he : e.1 = k
    · rw [dictGet?, if_pos he] at h
      cases h
    · rw [dictGet?, if_neg he] at h
      simp only [dictSet, if_neg he, dictKeys, List.map_cons]
      rw [show List.map Prod.fst (dictSet rest k v) = dictKeys (dictSet rest k v) from rfl,
        ih h]
      rfl

theorem nodupKeys_dictSet {α β : Type} [DecidableEq α] {m : List (α × β)} (k : α) (v : β)
    (h : NodupKeys m) : NodupKeys (dictSet m k v) := by
  rcases hk : dictGet? m k with _ | v₀
  · rw [NodupKeys, dictKeys_dictSet_of_absent v hk]
    refine List.Nodup.append h (List.nodup_singleton k) ?_
    intro a ha hb
    have hak : a = k := by simpa using hb
    subst hak
    exact ((dictGet?_eq_none_iff m a).mp hk) ha
  · rw [NodupKeys, dictKeys_dictSet_of_present v (by simp [hk])]
    exact h

theorem dictGet?_some_of_mem_nodup {α β : Type} [DecidableEq α] {m : List (α × β)}
    {e : α × β} (h : NodupKeys m) (he : e ∈ m) : dictGet? m e.1 = some e.2 := by
  induction m with
  | nil => cases he
  | cons e₀ rest ih =>
    rcases he with _ | ⟨_, he⟩
    · simp [dictGet?]
    · have hne : e₀.1 ≠ e.1 := by
        intro hcontra
        have hmem : e.1 ∈ dictKeys rest := List.mem_map_of_mem Prod.fst he
        rw [NodupKeys, dictKeys, List.map_cons, List.nodup_cons] at h
        exact h.1 (hcontra ▸ hmem)
      have h₂ : NodupKeys rest := by
        rw [NodupKeys, dictKeys, List.map_cons, List.nodup_cons] at h
        exact h.2
      simp [dictGet?, hne, ih h₂ he]

theorem updateLast_cons_cons {α : Type} (f : α → α) (x y : α) (rest : List α) :
    updateLast f (x :: y :: rest) = x :: updateLast f (y :: rest) := rfl

theorem updateLast_cons_shape {α : Type} (f : α → α) (y : α) (rest : List α) :
    ∃ z l₂, updateLast f (y :: rest) = z :: l₂ := by
  cases rest with
  | nil => exact ⟨f y, [], rfl⟩
  | cons a b => exact ⟨y, updateLast f (a :: b), rfl⟩

theorem getLast?_updateLast {α : Type} (f : α → α) (l : List α) :
    (updateLast f l).getLast? = l.getLast?.map f := by
  induction l with
  | nil => rfl
  | cons x rest ih =>
    cases rest with
    | nil => rfl
    | cons y rest₂ =>
      obtain ⟨z, l₂, hzl⟩ := updateLast_cons_shape f y rest₂
      rw [updateLast_cons_cons, List.getLast?_cons_cons, ← ih, hzl, List.getLast?_cons_cons]

theorem updateLast_updateLast {α : Type} (f g : α → α) (l : List α) :
    updateLast f (updateLast g l) = updateLast (fun x => f (g x)) l := by
  induction l with
  | nil => rfl
  | cons x rest ih =>
    cases rest with
    | nil => rfl
    | cons y rest₂ =>
      obtain ⟨z, l₂, hzl⟩ := updateLast_cons_shape g y rest₂
      rw [updateLast_cons_cons, updateLast_cons_cons, hzl, updateLast_cons_cons, ← hzl, ih]

theorem updateLast_eq_self {α : Type} {f : α → α} {l : List α} {x : α}
    (hl : l.getLast? = some x) (hfx : f x = x) : updateLast f l = l := by
  induction l with
  | nil => cases hl
  | cons a rest ih =>
    cases rest with
    | nil =>
      simp only [List.getLast?_singleton, Option.some.injEq] at hl
      simp [updateLast, hl, hfx]
    | cons y rest₂ =>
      rw [List.getLast?_cons_cons] at hl
      rw [updateLast_cons_cons, ih hl]

theorem updateLast_of_pointwise_id {α : Type} {f : α → α} (h : ∀ x, f x = x) (l : List α) :
    updateLast f l = l := by
  induction l with
  | nil => rfl
  | cons a rest ih =>
    cases rest with
    | nil => show [f a] = [a]; rw [h a]
    | cons y rest₂ => rw [updateLast_cons_cons, ih]

theorem updateLast_congr {α : Type} {f g : α → α} (h : ∀ x, f x = g x) (l : List α) :
    updateLast f l = updateLast g l := by
  induction l with
  | nil => rfl
  | cons a rest ih =>
    cases rest with
    | nil => show [f a] = [g a]; rw [h a]
    | cons y rest₂ => rw [updateLast_cons_cons, updateLast_cons_cons, ih]

/-- The last retained version of a WorkID, if any. -/
def lastVer? (s : TimelineState) (w : SVal) : Option SIVersion :=
  (dictGet? s w).bind List.getLast?

/-- The WorkID is present and its most recent stamp is not older than
the checkpoint index c (the state the in-place-mutation branch of the
loop fires on). -/
def StampOK (c : Int) (s : TimelineState) (w : SVal) : Prop :=
  ∃ last, lastVer? s w = some last ∧ ¬ last.checkpointindex < c

/-- Every diff row targets a WorkID in mutation position. -/
def Stamped (c : Int) (s : TimelineState) (rows : List (SVal × String × DVal)) : Prop :=
  ∀ r ∈ rows, StampOK c s r.1

/-- The pure in-place mutation propstore_records[w][-1][k] = v (the only
effect of a diff row once the WorkID is stamped at ≥ the checkpoint
index); on an absent WorkID it does nothing. -/
def mutRow (s : TimelineState) (w : SVal) (k : String) (v : DVal) : TimelineState :=
  match dictGet? s w with
  | none => s
  | some versions => dictSet s w (updateLast (setProp k v) versions)

/-- Folding mutRow over a diff. -/
def mutAll (s : TimelineState) : List (SVal × String × DVal) → TimelineState
  | [] => s
  | (w, k, v) :: rest => mutAll (mutRow s w k v) rest

/-- The property updates a diff carries for one WorkID, in order. -/
def rowsFor (w : SVal) (rows : List (SVal × String × DVal)) : List (String × DVal) :=
  (rows.filter (fun r => decide (r.1 = w))).map (fun r => r.2)

/-- The WorkIDs a diff touches. -/
def touched (rows : List (SVal × String × DVal)) : List SVal := rows.map (fun r => r.1)

/-- Batch property assignment, in order. -/
def setAllProps (p : List (String × DVal)) (l : List (String × DVal)) :
    List (String × DVal) :=
  l.foldl (fun acc kv => dictSet acc kv.1 kv.2) p

theorem rowsFor_cons_self (w : SVal) (k : String) (v : DVal)
    (rows : List (SVal × String × DVal)) :
    rowsFor w ((w, k, v) :: rows) = (k, v) :: rowsFor w rows := by
  simp [rowsFor, List.filter_cons]

theorem rowsFor_cons_ne {w w₀ : SVal} (hne : w₀ ≠ w) (k : String) (v : DVal)
    (rows : List (SVal × String × DVal)) :
    rowsFor w ((w₀, k, v) :: rows) = rowsFor w rows := by
  simp [rowsFor, List.filter_cons, hne]

theorem rowsFor_eq_nil_of_not_touched {w : SVal} {rows : List (SVal × String × DVal)}
    (h : w ∉ touched rows) : rowsFor w rows = [] := by
  induction rows with
  | nil => rfl
  | cons r rest ih =>
    obtain ⟨r1, r2⟩ := r
    simp only [touched, List.map_cons, List.mem_cons, not_or] at h
    rw [rowsFor_cons_ne (Ne.symm h.1)]
    exact ih h.2

theorem dictSet_preserves_some {α β : Type} [DecidableEq α] {p : List (α × β)} {k₂ : α}
    (k : α) (v : β) (hp : (dictGet? p k₂).isSome) : (dictGet? (dictSet p k v) k₂).isSome := by
  by_cases hk : k₂ = k
  · subst hk
    rw [dictGet?_dictSet_self]
    rfl
  · rw [dictGet?_dictSet_ne p v hk]
    exact hp

theorem applyDiffRow_ok_cases {c : Int} {s s₂ : TimelineState} {w : SVal} {k : String}
    {v : DVal} (h : applyDiffRow c s w k v = .ok s₂) :
    (dictGet? s w = none ∧ s₂ = dictSet s w [⟨[(k, v)], c⟩]) ∨
    (∃ versions last, dictGet? s w = some versions ∧ versions.getLast? = some last ∧
      ((last.checkpointindex < c ∧
        s₂ = dictSet s w (updateLast (setProp k v)
          (versions ++ [{ last with checkpointindex := c }]))) ∨
       (¬ last.checkpointindex < c ∧
        s₂ = dictSet s w (updateLast (setProp k v) versions)))) := by
  rw [applyDiffRow] at h
  split at h
  next hg =>
    injection h with h
    exact Or.inl ⟨hg, h.symm⟩
  next versions hg =>
    split at h
    next => cases h
    next last hl =>
      split at h
      next hlt =>
        injection h with h
        exact Or.inr ⟨versions, last, hg, hl, Or.inl ⟨hlt, h.symm⟩⟩
      next hlt =>
        injection h with h
        exact Or.inr ⟨versions, last, hg, hl, Or.inr ⟨hlt, h.symm⟩⟩

theorem applyDiffRow_get_ne {c : Int} {s s₂ : TimelineState} {w : SVal} {k : String}
    {v : DVal} (h : applyDiffRow c s w k v = .ok s₂) {w₂ : SVal} (hne : w₂ ≠ w) :
    dictGet? s₂ w₂ = dictGet? s w₂ := by
  rcases applyDiffRow_ok_cases h with ⟨_, rfl⟩ | ⟨versions, last, _, _, ⟨_, rfl⟩ | ⟨_, rfl⟩⟩
  all_goals exact dictGet?_dictSet_ne s _ hne

theorem applyDiffRow_stampOK_self {c : Int} {s s₂ : TimelineState} {w : SVal} {k : String}
    {v : DVal} (h : applyDiffRow c s w k v = .ok s₂) : StampOK c s₂ w := by
  rcases applyDiffRow_ok_cases h with ⟨hg, rfl⟩ |
    ⟨versions, last, hg, hl, ⟨hlt, rfl⟩ | ⟨hlt, rfl⟩⟩
  · refine ⟨⟨[(k, v)], c⟩, ?_, lt_irrefl c⟩
    rw [lastVer?, dictGet?_dictSet_self]
    rfl
  · refine ⟨setProp k v { last with checkpointindex := c }, ?_, lt_irrefl c⟩
    rw [lastVer?, dictGet?_dictSet_self, Option.some_bind, getLast?_updateLast,
      List.getLast?_concat]
    rfl
  · refine ⟨setProp k v last, ?_, hlt⟩
    rw [lastVer?, dictGet?_dictSet_self, Option.some_bind, getLast?_updateLast, hl]
    rfl

theorem applyDiffRow_stampOK_pres {c : Int} {s s₂ : TimelineState} {w : SVal} {k : String}
    {v : DVal} (h : applyDiffRow c s w k v = .ok s₂) {w₂ : SVal} (hst : StampOK c s w₂) :
    StampOK c s₂ w₂ := by
  by_cases hw : w₂ = w
  · subst hw
    exact applyDiffRow_stampOK_self h
  · obtain ⟨last, hlast, hcp⟩ := hst
    refine ⟨last, ?_, hcp⟩
    rw [lastVer?, applyDiffRow_get_ne h hw]
    exact hlast

theorem applyDiffRow_nodup {c : Int} {s s₂ : TimelineState} {w : SVal} {k : String}
    {v : DVal} (h : applyDiffRow c s w k v = .ok s₂) (hn : NodupKeys s) : NodupKeys s₂ := by
  rcases applyDiffRow_ok_cases h with ⟨_, rfl⟩ | ⟨versions, last, _, _, ⟨_, rfl⟩ | ⟨_, rfl⟩⟩
  all_goals exact nodupKeys_dictSet w _ hn

theorem applyDiff_get_ne {c : Int} {rows : List (SVal × String × DVal)}
    {s t : TimelineState} (h : applyDiff c s rows = .ok t) {w₂ : SVal}
    (hw : w₂ ∉ touched rows) : dictGet? t w₂ = dictGet? s w₂ := by
  induction rows generalizing s with
  | nil =>
    rw [applyDiff] at h
    cases h
    rfl
  | cons r rest ih =>
    obtain ⟨w, k, v⟩ := r
    simp only [touched, List.map_cons, List.mem_cons, not_or] at hw
    rw [applyDiff] at h
    rcases ha : applyDiffRow c s w k v with e | s₁
    all_goals rw [ha] at h
    · cases h
    · rw [ih h (by simpa [touched] using hw.2), applyDiffRow_get_ne ha hw.1]

theorem applyDiff_stampOK_pres {c : Int} {rows : List (SVal × String × DVal)}
    {s t : TimelineState} (h : applyDiff c s rows = .ok t) {w₂ : SVal}
    (hst : StampOK c s w₂) : StampOK c t w₂ := by
  induction rows generalizing s with
  | nil =>
    rw [applyDiff] at h
    cases h
    exact hst
  | cons r rest ih =>
    obtain ⟨w, k, v⟩ := r
    rw [applyDiff] at h
    rcases ha : applyDiffRow c s w k v with e | s₁
    all_goals rw [ha] at h
    · cases h
    · exact ih h (applyDiffRow_stampOK_pres ha hst)

theorem applyDiff_nodup {c : Int} {rows : List (SVal × String × DVal)}
    {s t : TimelineState} (h : applyDiff c s rows = .ok t) (hn : NodupKeys s) :
    NodupKeys t := by
  induction rows generalizing s with
  | nil =>
    rw [applyDiff] at h
    cases h
    exact hn
  | cons r rest ih =>
    obtain ⟨w, k, v⟩ := r
    rw [applyDiff] at h
    rcases ha : applyDiffRow c s w k v with e | s₁
    all_goals rw [ha] at h
    · cases h
    · exact ih h (applyDiffRow_nodup ha hn)

theorem applyDiff_stamped {c : Int} {rows : List (SVal × String × DVal)}
    {s t : TimelineState} (h : applyDiff c s rows = .ok t) : Stamped c t rows := by
  induction rows generalizing s with
  | nil => intro r hr; cases hr
  | cons r rest ih =>
    obtain ⟨w, k, v⟩ := r
    rw [applyDiff] at h
    rcases ha : applyDiffRow c s w k v with e | s₁
    all_goals rw [ha] at h
    · cases h
    · intro r₂ hr₂
      rcases hr₂ with _ | ⟨_, hr₂⟩
      · exact applyDiff_stampOK_pres h (applyDiffRow_stampOK_self ha)
      · exact ih h r₂ hr₂

theorem applyDiffRow_of_stampOK {c : Int} {s : TimelineState} {w : SVal} (k : String)
    (v : DVal) (hst : StampOK c s w) : applyDiffRow c s w k v = .ok (mutRow s w k v) := by
  obtain ⟨last, hlast, hcp⟩ := hst
  rw [lastVer?] at hlast
  rcases hg : dictGet? s w with _ | versions
  · rw [hg] at hlast
    cases hlast
  · rw [hg, Option.some_bind] at hlast
    simp only [applyDiffRow, mutRow, hg, hlast, if_neg hcp]

theorem mutRow_stampOK_pres {c : Int} {s : TimelineState} {w : SVal} {k : String}
    {v : DVal} {w₂ : SVal} (hst : StampOK c s w₂) : StampOK c (mutRow s w k v) w₂ := by
  rw [mutRow]
  rcases hg : dictGet? s w with _ | versions
  · exact hst
  · obtain ⟨last, hlast, hcp⟩ := hst
    by_cases hw : w₂ = w
    · subst hw
      rw [lastVer?, hg, Option.some_bind] at hlast
      refine ⟨setProp k v last, ?_, hcp⟩
      rw [lastVer?, dictGet?_dictSet_self, Option.some_bind, getLast?_updateLast, hlast]
      rfl
    · refine ⟨last, ?_, hcp⟩
      rw [lastVer?, dictGet?_dictSet_ne s _ hw]
      exact hlast

theorem applyDiff_of_stamped {c : Int} {rows : List (SVal × String × DVal)}
    {t : TimelineState} (hst : Stamped c t rows) :
    applyDiff c t rows = .ok (mutAll t rows) := by
  induction rows generalizing t with
  | nil => rfl
  | cons r rest ih =>
    obtain ⟨w, k, v⟩ := r
    rw [applyDiff, applyDiffRow_of_stampOK k v (hst (w, k, v) (List.mem_cons_self _ _))]
    rw [mutAll]
    exact ih (fun r₂ hr₂ => mutRow_stampOK_pres (hst r₂ (List.mem_cons_of_mem _ hr₂)))

theorem map_eq_self_of_pointwise {α : Type} {f : α → α} {l : List α}
    (h : ∀ a ∈ l, f a = a) : l.map f = l := by
  induction l with
  | nil => rfl
  | cons a rest ih =>
    rw [List.map_cons, h a (List.mem_cons_self _ _),
      ih (fun a₂ ha₂ => h a₂ (List.mem_cons_of_mem _ ha₂))]

theorem dictSet_eq_map_of_nodup {α β : Type} [DecidableEq α] {m : List (α × β)} {k : α}
    {vs : β} (hn : NodupKeys m) (hg : dictGet? m k = some vs) (f : β → β) :
    dictSet m k (f vs) = m.map (fun e => if e.1 = k then (e.1, f e.2) else e) := by
  induction m with
  | nil => cases hg
  | cons e rest ih =>
    rw [NodupKeys, dictKeys, List.map_cons, List.nodup_cons] at hn
    by_cases he : e.1 = k
    · rw [dictGet?, if_pos he] at hg
      injection hg with hg
      rw [dictSet, if_pos he, List.map_cons, if_pos he, hg]
      congr 1
      symm
      refine map_eq_self_of_pointwise ?_
      intro e₂ he₂
      have hne : ¬ e₂.1 = k := by
        intro hc
        exact hn.1 (by rw [he, ← hc]; exact List.mem_map_of_mem Prod.fst he₂)
      rw [if_neg hne]
    · rw [dictGet?, if_neg he] at hg
      rw [dictSet, if_neg he, List.map_cons, if_neg he, ih hn.2 hg]

/-- Pointwise entry update at one WorkID key. -/
def entryUpd (w : SVal) (f : List SIVersion → List SIVersion)
    (e : SVal × List SIVersion) : SVal × List SIVersion :=
  if e.1 = w then (e.1, f e.2) else e

theorem mutRow_eq_map {s : TimelineState} (hn : NodupKeys s) (w : SVal) (k : String)
    (v : DVal) : mutRow s w k v = s.map (entryUpd w (updateLast (setProp k v))) := by
  rw [mutRow]
  rcases hg : dictGet? s w with _ | versions
  · symm
    refine map_eq_self_of_pointwise ?_
    intro e he
    have hne : ¬ e.1 = w := by
      intro hc
      exact (dictGet?_eq_none_iff s w).mp hg (hc ▸ List.mem_map_of_mem Prod.fst he)
    rw [entryUpd, if_neg hne]
  · exact dictSet_eq_map_of_nodup hn hg (updateLast (setProp k v))

theorem mutRow_keys (s : TimelineState) (w : SVal) (k : String) (v : DVal) :
    dictKeys (mutRow s w k v) = dictKeys s := by
  rw [mutRow]
  rcases hg : dictGet? s w with _ | versions
  · rfl
  · exact dictKeys_dictSet_of_present _ (by rw [hg]; exact fun hc => Option.noConfusion hc)

theorem mutRow_nodup {s : TimelineState} (hn : NodupKeys s) (w : SVal) (k : String)
    (v : DVal) : NodupKeys (mutRow s w k v) := by
  rw [NodupKeys, mutRow_keys]
  exact hn

/-- The total effect of a diff on the last version of one WorkID: all
property updates the diff carries for it, applied in order. -/
def absorbVer (rows : List (SVal × String × DVal)) (w : SVal) (ver : SIVersion) : SIVersion :=
  { ver with props := setAllProps ver.props (rowsFor w rows) }

/-- The per-entry view of a pure mutation pass over a state. -/
def pointwiseUpd (rows : List (SVal × String × DVal)) (s : TimelineState) : TimelineState :=
  s.map (fun e => (e.1, updateLast (absorbVer rows e.1) e.2))

theorem absorbVer_nil (w : SVal) (x : SIVersion) : absorbVer [] w x = x := rfl

theorem absorbVer_cons_self (w : SVal) (k : String) (v : DVal)
    (rest : List (SVal × String × DVal)) (x : SIVersion) :
    absorbVer ((w, k, v) :: rest) w x = absorbVer rest w (setProp k v x) := by
  simp [absorbVer, setProp, rowsFor_cons_self, setAllProps]

theorem absorbVer_cons_ne {w w₀ : SVal} (hne : w₀ ≠ w) (k : String) (v : DVal)
    (rest : List (SVal × String × DVal)) (x : SIVersion) :
    absorbVer ((w₀, k, v) :: rest) w x = absorbVer rest w x := by
  simp [absorbVer, rowsFor_cons_ne hne]

theorem mutAll_eq_pointwise {s : TimelineState} (hn : NodupKeys s)
    (rows : List (SVal × String × DVal)) : mutAll s rows = pointwiseUpd rows s := by
  induction rows generalizing s with
  | nil =>
    rw [mutAll, pointwiseUpd]
    symm
    refine map_eq_self_of_pointwise ?_
    intro e he
    rw [updateLast_of_pointwise_id (fun x => absorbVer_nil e.1 x)]
  | cons r rest ih =>
    obtain ⟨w, k, v⟩ := r
    rw [mutAll, ih (mutRow_nodup hn w k v), pointwiseUpd, mutRow_eq_map hn, List.map_map,
      pointwiseUpd]
    refine List.map_congr_left ?_
    intro e he
    simp only [Function.comp_apply]
    by_cases hew : e.1 = w
    · simp only [entryUpd, if_pos hew]
      rw [updateLast_updateLast, hew]
      exact congrArg (fun l => ((w : SVal), l))
        (updateLast_congr (fun x => (absorbVer_cons_self w k v rest x).symm) e.2)
    · simp only [entryUpd, if_neg hew]
      exact congrArg (fun l => (e.1, l))
        (updateLast_congr
          (fun x => (absorbVer_cons_ne (fun hc => hew hc.symm) k v rest x).symm) e.2)

/-- The last version of WorkID w has property key k present. -/
def LastHasKey (s : TimelineState) (w : SVal) (k : String) : Prop :=
  ∃ last, lastVer? s w = some last ∧ (dictGet? last.props k).isSome

/-- The last version of WorkID w binds property k to value v. -/
def LastBinds (s : TimelineState) (w : SVal) (k : String) (v : DVal) : Prop :=
  ∃ last, lastVer? s w = some last ∧ dictGet? last.props k = some v

theorem lastBinds_hasKey {s : TimelineState} {w : SVal} {k : String} {v : DVal}
    (h : LastBinds s w k v) : LastHasKey s w k := by
  obtain ⟨last, h1, h2⟩ := h
  exact ⟨last, h1, by rw [h2]; rfl⟩

theorem lastVer?_dictSet_self (s : TimelineState) (w : SVal) (versions : List SIVersion) :
    lastVer? (dictSet s w versions) w = versions.getLast? := by
  rw [lastVer?, dictGet?_dictSet_self, Option.some_bind]

theorem applyDiffRow_lastBinds_self {c : Int} {s s₂ : TimelineState} {w : SVal}
    {k : String} {v : DVal} (h : applyDiffRow c s w k v = .ok s₂) : LastBinds s₂ w k v := by
  rcases applyDiffRow_ok_cases h with ⟨hg, rfl⟩ |
    ⟨versions, last, hg, hl, ⟨hlt, rfl⟩ | ⟨hlt, rfl⟩⟩
  · refine ⟨⟨[(k, v)], c⟩, ?_, ?_⟩
    · rw [lastVer?_dictSet_self]
      rfl
    · rw [show (⟨[(k, v)], c⟩ : SIVersion).props = [(k, v)] from rfl]
      simp [dictGet?]
  · refine ⟨setProp k v { last with checkpointindex := c }, ?_, ?_⟩
    · rw [lastVer?_dictSet_self, getLast?_updateLast, List.getLast?_concat]
      rfl
    · exact dictGet?_dictSet_self _ _ _
  · refine ⟨setProp k v last, ?_, ?_⟩
    · rw [lastVer?_dictSet_self, getLast?_updateLast, hl]
      rfl
    · exact dictGet?_dictSet_self _ _ _

theorem applyDiffRow_lastHasKey_pres {c : Int} {s s₂ : TimelineState} {w : SVal}
    {k : String} {v : DVal} (h : applyDiffRow c s w k v = .ok s₂) {w₂ : SVal} {k₂ : String}
    (hk : LastHasKey s w₂ k₂) : LastHasKey s₂ w₂ k₂ := by
  by_cases hw : w₂ = w
  · subst hw
    obtain ⟨last, hlast, hsome⟩ := hk
    rw [lastVer?] at hlast
    rcases applyDiffRow_ok_cases h with ⟨hg, rfl⟩ |
      ⟨versions, last₂, hg, hl, ⟨hlt, rfl⟩ | ⟨hlt, rfl⟩⟩
    · rw [hg] at hlast
      cases hlast
    · rw [hg, Option.some_bind, hl] at hlast
      injection hlast with hlast
      rw [← hlast] at hsome
      refine ⟨setProp k v { last₂ with checkpointindex := c }, ?_, ?_⟩
      · rw [lastVer?_dictSet_self, getLast?_updateLast, List.getLast?_concat]
        rfl
      · exact dictSet_preserves_some k v hsome
    · rw [hg, Option.some_bind, hl] at hlast
      injection hlast with hlast
      rw [← hlast] at hsome
      refine ⟨setProp k v last₂, ?_, ?_⟩
      · rw [lastVer?_dictSet_self, getLast?_updateLast, hl]
        rfl
      · exact dictSet_preserves_some k v hsome
  · obtain ⟨last, hlast, hsome⟩ := hk
    refine ⟨last, ?_, hsome⟩
    rw [lastVer?, applyDiffRow_get_ne h hw]
    exact hlast

theorem applyDiff_lastHasKey_pres {c : Int} {rows : List (SVal × String × DVal)}
    {s t : TimelineState} (h : applyDiff c s rows = .ok t) {w₂ : SVal} {k₂ : String}
    (hk : LastHasKey s w₂ k₂) : LastHasKey t w₂ k₂ := by
  induction rows generalizing s with
  | nil =>
    rw [applyDiff] at h
    cases h
    exact hk
  | cons r rest ih =>
    obtain ⟨w, k, v⟩ := r
    rw [applyDiff] at h
    rcases ha : applyDiffRow c s w k v with e | s₁
    all_goals rw [ha] at h
    · cases h
    · exact ih h (applyDiffRow_lastHasKey_pres ha hk)

theorem applyDiffRow_lastBinds_pres {c : Int} {s s₂ : TimelineState} {w : SVal}
    {k : String} {v : DVal} (h : applyDiffRow c s w k v = .ok s₂) {w₂ : SVal} {k₂ : String}
    {v₂ : DVal} (hno : w ≠ w₂ ∨ k ≠ k₂) (hb : LastBinds s w₂ k₂ v₂) :
    LastBinds s₂ w₂ k₂ v₂ := by
  by_cases hw : w₂ = w
  · subst hw
    have hkk : ¬ k₂ = k := by
      rcases hno with hno | hno
      · cases hno rfl
      · exact fun hc => hno hc.symm
    obtain ⟨last, hlast, hbind⟩ := hb
    rw [lastVer?] at hlast
    rcases applyDiffRow_ok_cases h with ⟨hg, rfl⟩ |
      ⟨versions, last₂, hg, hl, ⟨hlt, rfl⟩ | ⟨hlt, rfl⟩⟩
    · rw [hg] at hlast
      cases hlast
    · rw [hg, Option.some_bind, hl] at hlast
      injection hlast with hlast
      rw [← hlast] at hbind
      refine ⟨setProp k v { last₂ with checkpointindex := c }, ?_, ?_⟩
      · rw [lastVer?_dictSet_self, getLast?_updateLast, List.getLast?_concat]
        rfl
      · rw [show (setProp k v { last₂ with checkpointindex := c }).props
            = dictSet last₂.props k v from rfl, dictGet?_dictSet_ne _ _ hkk]
        exact hbind
    · rw [hg, Option.some_bind, hl] at hlast
      injection hlast with hlast
      rw [← hlast] at hbind
      refine ⟨setProp k v last₂, ?_, ?_⟩
      · rw [lastVer?_dictSet_self, getLast?_updateLast, hl]
        rfl
      · rw [show (setProp k v last₂).props = dictSet last₂.props k v from rfl,
          dictGet?_dictSet_ne _ _ hkk]
        exact hbind
  · obtain ⟨last, hlast, hbind⟩ := hb
    refine ⟨last, ?_, hbind⟩
    rw [lastVer?, applyDiffRow_get_ne h hw]
    exact hlast

theorem applyDiff_lastBinds_pres {c : Int} {rows : List (SVal × String × DVal)}
    {s t : TimelineState} (h : applyDiff c s rows = .ok t) {w₂ : SVal} {k₂ : String}
    {v₂ : DVal} (hrows : ∀ r ∈ rows, r.1 ≠ w₂ ∨ r.2.1 ≠ k₂)
    (hb : LastBinds s w₂ k₂ v₂) : LastBinds t w₂ k₂ v₂ := by
  induction rows generalizing s with
  | nil =>
    rw [applyDiff] at h
    cases h
    exact hb
  | cons r rest ih =>
    obtain ⟨w, k, v⟩ := r
    rw [applyDiff] at h
    rcases ha : applyDiffRow c s w k v with e | s₁
    all_goals rw [ha] at h
    · cases h
    · refine ih h (fun r₂ hr₂ => hrows r₂ (List.mem_cons_of_mem _ hr₂)) ?_
      exact applyDiffRow_lastBinds_pres ha (hrows (w, k, v) (List.mem_cons_self _ _)) hb

theorem snd_mem_rowsFor {w : SVal} {rows : List (SVal × String × DVal)}
    {r : SVal × String × DVal} (hr : r ∈ rows) (hw : r.1 = w) : r.2 ∈ rowsFor w rows := by
  rw [rowsFor]
  exact List.mem_map_of_mem _ (List.mem_filter.mpr ⟨hr, by simp [hw]⟩)

theorem dictSet_comm_of_present {α β : Type} [DecidableEq α] {p : List (α × β)} {k k₂ : α}
    (v v₂ : β) (hp : (dictGet? p k).isSome) (hne : k ≠ k₂) :
    dictSet (dictSet p k v) k₂ v₂ = dictSet (dictSet p k₂ v₂) k v := by
  induction p with
  | nil => cases hp
  | cons e rest ih =>
    by_cases he : e.1 = k
    · have hne₂ : ¬ e.1 = k₂ := by rw [he]; exact hne
      rw [dictSet, if_pos he, dictSet, if_neg hne₂, dictSet, if_neg hne₂, dictSet, if_pos he]
    · rw [dictGet?, if_neg he] at hp
      by_cases he₂ : e.1 = k₂
      · rw [dictSet, if_neg he, dictSet, if_pos he₂, dictSet, if_pos he₂, dictSet, if_neg he]
      · rw [dictSet, if_neg he, dictSet, if_neg he₂, dictSet, if_neg he₂, dictSet,
          if_neg he, ih hp]

theorem setAllProps_cons (p : List (String × DVal)) (k : String) (v : DVal)
    (l : List (String × DVal)) :
    setAllProps p ((k, v) :: l) = setAllProps (dictSet p k v) l := rfl

theorem setAllProps_absorb_of_mem {p : List (String × DVal)} {l : List (String × DVal)}
    {k : String} (v : DVal) (hp : (dictGet? p k).isSome) (hkl : k ∈ l.map Prod.fst) :
    setAllProps (dictSet p k v) l = setAllProps p l := by
  induction l generalizing p with
  | nil => cases hkl
  | cons kv l₂ ih =>
    obtain ⟨k₁, v₁⟩ := kv
    by_cases hk₁ : k₁ = k
    · subst hk₁
      rw [setAllProps_cons, setAllProps_cons, dictSet_dictSet_same]
    · have hkl₂ : k ∈ l₂.map Prod.fst := by
        rw [List.map_cons] at hkl
        rcases List.mem_cons.mp hkl with h | h
        · cases hk₁ h.symm
        · exact h
      rw [setAllProps_cons, setAllProps_cons,
        dictSet_comm_of_present v v₁ hp (fun hc => hk₁ hc.symm)]
      exact ih (dictSet_preserves_some k₁ v₁ hp) hkl₂

theorem setAllProps_dictSet_of_not_mem {p : List (String × DVal)} {l : List (String × DVal)}
    {k : String} (v : DVal) (hp : (dictGet? p k).isSome) (hkl : k ∉ l.map Prod.fst) :
    setAllProps (dictSet p k v) l = dictSet (setAllProps p l) k v := by
  induction l generalizing p with
  | nil => rfl
  | cons kv l₂ ih =>
    obtain ⟨k₁, v₁⟩ := kv
    have hk₁ : ¬ k₁ = k := by
      intro hc
      exact hkl (by rw [List.map_cons, hc]; exact List.mem_cons_self _ _)
    have hkl₂ : k ∉ l₂.map Prod.fst := fun hc => hkl (List.mem_cons_of_mem _ hc)
    rw [setAllProps_cons, setAllProps_cons,
      dictSet_comm_of_present v v₁ hp (fun hc => hk₁ hc.symm),
      ih (dictSet_preserves_some k₁ v₁ hp) hkl₂]

theorem applyDiff_absorbed {c : Int} {rows : List (SVal × String × DVal)}
    {s t : TimelineState} (h : applyDiff c s rows = .ok t) :
    ∀ w ∈ touched rows, ∃ last, lastVer? t w = some last ∧
      setAllProps last.props (rowsFor w rows) = last.props := by
  induction rows generalizing s with
  | nil => intro w hw; cases hw
  | cons r rest ih =>
    obtain ⟨w₀, k, v⟩ := r
    rw [applyDiff] at h
    rcases ha : applyDiffRow c s w₀ k v with e | s₁
    all_goals rw [ha] at h
    · cases h
    · intro w hw
      by_cases hww : w = w₀
      · subst hww
        by_cases hkin : k ∈ (rowsFor w rest).map Prod.fst
        · have htr : w ∈ touched rest := by
            by_contra hc
            rw [rowsFor_eq_nil_of_not_touched hc] at hkin
            cases hkin
          obtain ⟨last, hlast, habs⟩ := ih h w htr
          obtain ⟨last₂, hlast₂, hsome⟩ :=
            applyDiff_lastHasKey_pres h (lastBinds_hasKey (applyDiffRow_lastBinds_self ha))
          rw [hlast] at hlast₂
          injection hlast₂ with hlast₂
          rw [← hlast₂] at hsome
          refine ⟨last, hlast, ?_⟩
          rw [rowsFor_cons_self, setAllProps_cons,
            setAllProps_absorb_of_mem v hsome hkin, habs]
        · have hbind : LastBinds t w k v := by
            refine applyDiff_lastBinds_pres h ?_ (applyDiffRow_lastBinds_self ha)
            intro r₂ hr₂
            by_cases hr₂w : r₂.1 = w
            · right
              intro hc
              exact hkin (hc ▸ List.mem_map_of_mem Prod.fst (snd_mem_rowsFor hr₂ hr₂w))
            · left
              exact hr₂w
          obtain ⟨last, hlast, hb⟩ := hbind
          refine ⟨last, hlast, ?_⟩
          rw [rowsFor_cons_self, setAllProps_cons]
          by_cases htr : w ∈ touched rest
          · obtain ⟨last₂, hlast₂, habs⟩ := ih h w htr
            rw [hlast] at hlast₂
            injection hlast₂ with hlast₂
            rw [← hlast₂] at habs
            rw [setAllProps_dictSet_of_not_mem v (by rw [hb]; rfl) hkin, habs,
              dictSet_eq_self hb]
          · rw [rowsFor_eq_nil_of_not_touched htr]
            exact dictSet_eq_self hb
      · have htr : w ∈ touched rest := by
          simp only [touched, List.map_cons, List.mem_cons] at hw
          exact hw.resolve_left hww
        obtain ⟨last, hlast, habs⟩ := ih h w htr
        refine ⟨last, hlast, ?_⟩
        rw [rowsFor_cons_ne (fun hc => hww hc.symm)]
        exact habs

theorem applyDiff_idem {c : Int} {rows : List (SVal × String × DVal)} {s t : TimelineState}
    (h : applyDiff c s rows = .ok t) (hn : NodupKeys s) : applyDiff c t rows = .ok t := by
  have hnt : NodupKeys t := applyDiff_nodup h hn
  rw [applyDiff_of_stamped (applyDiff_stamped h), mutAll_eq_pointwise hnt]
  congr 1
  rw [pointwiseUpd]
  refine map_eq_self_of_pointwise ?_
  intro e he
  by_cases htouch : e.1 ∈ touched rows
  · obtain ⟨last, hlast, habs⟩ := applyDiff_absorbed h e.1 htouch
    have hget : dictGet? t e.1 = some e.2 := dictGet?_some_of_mem_nodup hnt he
    rw [lastVer?, hget, Option.some_bind] at hlast
    have hfix : absorbVer rows e.1 last = last := by
      show { last with props := setAllProps last.props (rowsFor e.1 rows) } = last
      rw [habs]
    rw [updateLast_eq_self hlast hfix]
  · rw [updateLast_of_pointwise_id (fun x => by
      show { x with props := setAllProps x.props (rowsFor e.1 rows) } = x
      rw [rowsFor_eq_nil_of_not_touched htouch]
      rfl)]

theorem resolveRows_processCheckpointRows {metadata : List (Int × String)}
    {rows : List (List SVal)} {d : List (SVal × String × DVal)}
    (h : resolveRows metadata rows = .ok d) (c : Int) (s : TimelineState) :
    processCheckpointRows metadata c s rows = applyDiff c s d := by
  induction rows generalizing d s with
  | nil =>
    rw [resolveRows] at h
    cases h
    rfl
  | cons row rest ih =>
    rw [resolveRows] at h
    rcases hr : resolveRow metadata row with e | o
    all_goals rw [hr] at h
    · cases h
    · rcases o with _ | t₀
      · simp only [processCheckpointRows, hr]
        exact ih h s
      · rcases hrr : resolveRows metadata rest with e | ts
        all_goals rw [hrr] at h
        · cases h
        · injection h with h
          subst h
          obtain ⟨w, k, v⟩ := t₀
          simp only [processCheckpointRows, hr, applyDiff]
          rcases ha : applyDiffRow c s w k v with e | s₁
          · rfl
          · exact ih hrr s₁

theorem processCheckpointRows_ok_resolves {metadata : List (Int × String)} {c : Int}
    {s t : TimelineState} {rows : List (List SVal)}
    (h : processCheckpointRows metadata c s rows = .ok t) :
    ∃ d, resolveRows metadata rows = .ok d := by
  induction rows generalizing s with
  | nil => exact ⟨[], rfl⟩
  | cons row rest ih =>
    rw [processCheckpointRows] at h
    split at h
    next e hr => cases h
    next hr =>
      obtain ⟨d, hd⟩ := ih h
      exact ⟨d, by simp only [resolveRows, hr, hd]⟩
    next w k v hr =>
      split at h
      next e ha => cases h
      next s₁ ha =>
        obtain ⟨d, hd⟩ := ih h
        exact ⟨(w, k, v) :: d, by simp only [resolveRows, hr, hd]⟩

instance {α β : Type} [DecidableEq α] (m : List (α × β)) : Decidable (NodupKeys m) :=
  inferInstanceAs (Decidable (dictKeys m).Nodup)

instance {ε α : Type} [DecidableEq ε] [DecidableEq α] : DecidableEq (Except ε α) :=
  fun a b =>
    match a, b with
    | .error e₁, .error e₂ =>
      match decEq e₁ e₂ with
      | isTrue h => isTrue (by rw [h])
      | isFalse h => isFalse (fun hc => h (by cases hc; rfl))
    | .error _, .ok _ => isFalse (fun hc => Except.noConfusion hc)
    | .ok _, .error _ => isFalse (fun hc => Except.noConfusion hc)
    | .ok a₁, .ok a₂ =>
      match decEq a₁ a₂ with
      | isTrue h => isTrue (by rw [h])
      | isFalse h => isFalse (fun hc => h (by cases hc; rfl))

/-- C6: diff application is idempotent. For every checkpoint index, every
prior timeline state (a Python dict, hence without duplicate WorkID
keys) and every checkpoint diff, if running the WAL-diff loop of
_get_sqlite_records over the diff succeeds and produces state t, then
running the same loop a second time on t returns t unchanged. -/
theorem C6_diff_application_idempotent (metadata : List (Int × String)) (c : Int)
    (s t : TimelineState) (rows : List (List SVal))
    (h : processCheckpointRows metadata c s rows = .ok t) (hn : NodupKeys s) :
    processCheckpointRows metadata c t rows = .ok t := by
  obtain ⟨d, hd⟩ := processCheckpointRows_ok_resolves h
  rw [resolveRows_processCheckpointRows hd] at h ⊢
  exact applyDiff_idem h hn

/-- Witness for C6: a base state with one WorkID at checkpoint 0, one
diff row at checkpoint 1; the first application clones the version and
the second application leaves the result untouched. -/
theorem C6_diff_application_idempotent_witness :
    processCheckpointRows [(10, "System_Author")] 1
        [(.int 1, [⟨[("System_Author", .vraw (.text ("x")))], 0⟩])]
        [[.int 1, .int 10, .text ("y")]]
      = .ok [(.int 1, [⟨[("System_Author", .vraw (.text ("x")))], 0⟩,
          ⟨[("System_Author", .vraw (.text ("y")))], 1⟩])] ∧
    NodupKeys [((SVal.int 1), [(⟨[("System_Author", .vraw (.text ("x")))], 0⟩ : SIVersion)])] ∧
    processCheckpointRows [(10, "System_Author")] 1
        [(.int 1, [⟨[("System_Author", .vraw (.text ("x")))], 0⟩,
          ⟨[("System_Author", .vraw (.text ("y")))], 1⟩])]
        [[.int 1, .int 10, .text ("y")]]
      = .ok [(.int 1, [⟨[("System_Author", .vraw (.text ("x")))], 0⟩,
          ⟨[("System_Author", .vraw (.text ("y")))], 1⟩])] :=
  ⟨by decide, by decide,
    C6_diff_application_idempotent [(10, "System_Author")] 1
      [(.int 1, [⟨[("System_Author", .vraw (.text ("x")))], 0⟩])]
      [(.int 1, [⟨[("System_Author", .vraw (.text ("x")))], 0⟩,
        ⟨[("System_Author", .vraw (.text ("y")))], 1⟩])]
      [[.int 1, .int 10, .text ("y")]] (by decide) (by decide)⟩

/-- One row of the SystemIndex_Gthr table of Windows-gather.db, with the
columns the plugin reads. -/
structure GthrRow where
  DocumentID : Int
  FileName : Option String
  LastModified : Option (List Nat)
  SDID : Int
  deriving DecidableEq, Repr

/-- One row of SystemIndex_1_PropertyStore_Metadata. -/
structure MetadataRow where
  Id : Int
  PropertyId : String
  deriving DecidableEq, Repr

/-- One row of SystemIndex_1_PropertyStore. -/
structure PropstoreRow where
  WorkId : Int
  ColumnId : Int
  Value : SVal
  deriving DecidableEq, Repr

/-- A value as it appears inside an emitted row dict: merged from the
Gthr fields, the decoded property values, the WorkID, the checkpoint
stamp and the latest flag. -/
inductive EVal
  | eNone
  | eInt (i : Int)
  | eStr (s : String)
  | eBlob (b : List Nat)
  | eBool (b : Bool)
  | eDt (ticks : Nat)
  deriving DecidableEq, Repr

def EVal.ofSVal : SVal → EVal
  | .null => .eNone
  | .int i => .eInt i
  | .text s => .eStr s
  | .blob b => .eBlob b

def EVal.ofDVal : DVal → EVal
  | .vnone => .eNone
  | .vdt t => .eDt t
  | .vraw v => EVal.ofSVal v

/-- Stable insertion (equal keys keep their relative order, as Python
sorted does). -/
def insertByKey {α : Type} (key : α → Int) (x : α) : List α → List α
  | [] => [x]
  | y :: rest => if key x < key y then x :: y :: rest else y :: insertByKey key x rest

/-- sorted(rows, key=...) as a stable sort. -/
def sortByKey {α : Type} (key : α → Int) (l : List α) : List α :=
  l.foldl (fun acc x => insertByKey key x acc) []

/-- The Gthr aggregation loop of _get_sqlite_records (lines 247-258):
rows sorted by DocumentID, each one decoded into the
FileName/LastModified/SDID dict keyed by DocumentID; the LastModified
wintimestamp call is not guarded here, so a ValueError escapes. -/
def buildGthrAux : List (Int × List (String × EVal)) → List GthrRow →
    Except PyErr (List (Int × List (String × EVal)))
  | acc, [] => .ok acc
  | acc, row :: rest =>
    match (match row.LastModified with
      | none => Except.ok EVal.eNone
      | some b =>
        match wintimestamp (intFromBytesLE b) with
        | .ok t => .ok (.eDt t)
        | .error e => .error e) with
    | .error e => .error e
    | .ok lm =>
      buildGthrAux
        (dictSet acc row.DocumentID
          [("FileName", match row.FileName with | none => EVal.eNone | some s => .eStr s),
           ("LastModified", lm),
           ("SDID", .eInt row.SDID)])
        rest

def buildGthrRecords (rows : List GthrRow) :
    Except PyErr (List (Int × List (String × EVal))) :=
  buildGthrAux [] (sortByKey (fun r => r.DocumentID) rows)

/-- str.replace of dots by underscores (line 268). -/
def replaceDots (s : String) : String :=
  String.mk (s.toList.map (fun ch => if ch = '.' then '_' else ch))

/-- The column catalog of _get_sqlite_records (lines 263-270): only
columns in the include list are kept, keyed by numeric Id. -/
def buildPropstoreMetadata (rows : List MetadataRow) : List (Int × String) :=
  rows.foldl
    (fun md row =>
      if replaceDots row.PropertyId ∈ PROPSTORE_INCLUDE_COLUMNS then
        dictSet md row.Id (replaceDots row.PropertyId)
      else md)
    []

/-- In-place mutation of the first element of a Python list (lst[0]);
the base loop only reaches it on the singleton lists it creates. -/
def updateFirst {α : Type} (f : α → α) : List α → List α
  | [] => []
  | x :: rest => f x :: rest

/-- The base-aggregation loop of _get_sqlite_records (lines 275-296):
rows sorted by WorkId; a row whose ColumnId is not in the catalog is
skipped; otherwise its value is decoded and written into version 0 of
its WorkID (a fresh singleton version list stamped checkpointindex 0 on
first sight). -/
def buildBaseAux (metadata : List (Int × String)) :
    TimelineState → List PropstoreRow → Except PyErr TimelineState
  | s, [] => .ok s
  | s, row :: rest =>
    match dictGet? metadata row.ColumnId with
    | none => buildBaseAux metadata s rest
    | some column_name =>
      match decodePropValue (decide (column_name ∈ WIN_DATETIME_FIELDS)) row.Value with
      | .error e => .error e
      | .ok value =>
        match dictGet? s (.int row.WorkId) with
        | none =>
          buildBaseAux metadata
            (dictSet s (.int row.WorkId) [⟨[(column_name, value)], 0⟩]) rest
        | some versions =>
          buildBaseAux metadata
            (dictSet s (.int row.WorkId)
              (updateFirst (setProp column_name value) versions)) rest

def build_base (metadata : List (Int × String)) (rows : List PropstoreRow) :
    Except PyErr TimelineState :=
  buildBaseAux metadata [] (sortByKey (fun r => r.WorkId) rows)

/-- The WAL replay loop (lines 343-381): each checkpoint is diffed
against the current base pages and its diff rows are applied in order. -/
def replayCheckpoints (metadata : List (Int × String)) (db : Nat → PageRead) :
    TimelineState → List Checkpoint → Except PyErr TimelineState
  | s, [] => .ok s
  | s, cp :: rest =>
    match processCheckpointRows metadata cp.index s
        (get_changes_between_db_and_checkpoint db cp) with
    | .error e => .error e
    | .ok s₂ => replayCheckpoints metadata db s₂ rest

/-- max() over a Python list of ints; empty input raises ValueError. -/
def listMaxInt : List Int → Except PyErr Int
  | [] => .error .valueError
  | [k] => .ok k
  | k :: k₂ :: rest =>
    match listMaxInt (k₂ :: rest) with
    | .ok m => .ok (max k m)
    | .error e => .error e

/-- Python max() over dict keys that must all be ints (a stray non-int
WorkID key from a WAL row would make the comparison raise TypeError). -/
def svalKeysToInts : List SVal → Except PyErr (List Int)
  | [] => .ok []
  | .int i :: rest =>
    match svalKeysToInts rest with
    | .ok ks => .ok (i :: ks)
    | .error e => .error e
  | _ :: _ => .error .typeError

/-- max(max(gthr_records.keys()), max(propstore_records.keys())) of
line 385, with Python evaluation order. -/
def computeMaxId (gthr : List (Int × List (String × EVal))) (props : TimelineState) :
    Except PyErr Int :=
  match listMaxInt (dictKeys gthr) with
  | .error e => .error e
  | .ok g =>
    match svalKeysToInts (dictKeys props) with
    | .error e => .error e
    | .ok ks =>
      match listMaxInt ks with
      | .error e => .error e
      | .ok p => .ok (max g p)

/-- range(max_id): 0, 1, ..., max_id - 1 (empty when max_id ≤ 0). -/
def pyRange (n : Int) : List Int := (List.range n.toNat).map Int.ofNat

/-- One retained version as the dict the emission loop merges: its
property names with decoded values plus the checkpointindex stamp. -/
def versionToRow (ver : SIVersion) : List (String × EVal) :=
  ver.props.map (fun p => (p.1, EVal.ofDVal p.2)) ++
    [("checkpointindex", .eInt ver.checkpointindex)]

/-- One iteration of the emission loop of _get_sqlite_records (lines
387-399): merge the Gthr fields into the row, then either append every
retained version with latest=False and flip the last appended row to
latest=True (rows[-1], an IndexError when no row exists yet), or keep
the bare Gthr row when it gained any field beyond WorkID. -/
def emitForId (gthr : List (Int × List (String × EVal))) (props : TimelineState)
    (rows : List (List (String × EVal))) (i : Int) :
    Except PyErr (List (List (String × EVal))) :=
  let row₀ := [("WorkID", EVal.eInt i)]
  let row := match dictGet? gthr i with
    | none => row₀
    | some g => dictMerge row₀ g
  match dictGet? props (.int i) with
  | some versions =>
    match rows ++ versions.map
        (fun ver => dictMerge (dictMerge row (versionToRow ver)) [("latest", .eBool false)]) with
    | [] => .error .indexError
    | r :: rs => .ok (updateLast (fun r₂ => dictSet r₂ ("latest") (.eBool true)) (r :: rs))
  | none =>
    if row.length > 1 then .ok (rows ++ [row]) else .ok rows

def emitRowsAux (gthr : List (Int × List (String × EVal))) (props : TimelineState) :
    List (List (String × EVal)) → List Int → Except PyErr (List (List (String × EVal)))
  | rows, [] => .ok rows
  | rows, i :: rest =>
    match emitForId gthr props rows i with
    | .error e => .error e
    | .ok rows₂ => emitRowsAux gthr props rows₂ rest

/-- The emission stage (lines 383-399). -/
def emitRows (gthr : List (Int × List (String × EVal))) (props : TimelineState) :
    Except PyErr (List (List (String × EVal))) :=
  match computeMaxId gthr props with
  | .error e => .error e
  | .ok maxId => emitRowsAux gthr props [] (pyRange maxId)

/-- _get_sqlite_records (searchindex.py lines 223-404) over one SQLite
database: the gather database is opened unconditionally (its absence
raises FileNotFoundError), then the Gthr aggregation, the column
catalog, the base aggregation, the optional WAL replay and the
emission run in order, the first exception escaping. -/
def get_sqlite_records (gatherRows : Option (List GthrRow))
    (metadataRows : List MetadataRow) (propstoreRows : List PropstoreRow)
    (db : Nat → PageRead) (walCheckpoints : Option (List Checkpoint)) :
    Except PyErr (List (List (String × EVal))) :=
  match gatherRows with
  | none => .error .fileNotFound
  | some gRows =>
    match buildGthrRecords gRows with
    | .error e => .error e
    | .ok gthr_records =>
      match build_base (buildPropstoreMetadata metadataRows) propstoreRows with
      | .error e => .error e
      | .ok base =>
        match (match walCheckpoints with
          | none => Except.ok base
          | some cps =>
            replayCheckpoints (buildPropstoreMetadata metadataRows) db base cps) with
        | .error e => .error e
        | .ok st => emitRows gthr_records st

/-- The SearchIndexFileInfoRecord an emitted row is converted to in the
else branch of searchindex() (lines 432-459); the source path and
target are per-file constants and omitted. -/
structure FileInfoRec where
  workid : Option EVal
  record_last_modified : Option EVal
  filename : Option String
  gathertime : Option EVal
  sdid : Option EVal
  size : Option Int
  date_modified : Option EVal
  date_created : Option EVal
  date_accessed : Option EVal
  owner : Option EVal
  systemitemtype : Option EVal
  fileattributes : Option String
  autosummary : Option String
  latest : Option EVal
  checkpointindex : Option EVal
  deriving DecidableEq, Repr

/-- The SearchIndexFileActivityRecord built for ActivityHistoryItem
rows (lines 416-431). -/
structure ActivityRec where
  workid : Option EVal
  starttime : Option EVal
  endtime : Option EVal
  appid : Option EVal
  file_contenturi : Option EVal
  description : Option EVal
  displaytext : Option EVal
  itempathdisplay : Option EVal
  systemitemtype : Option EVal
  latest : Option EVal
  checkpointindex : Option EVal
  deriving DecidableEq, Repr

inductive OutRec
  | activity (r : ActivityRec)
  | fileinfo (r : FileInfoRec)
  deriving DecidableEq, Repr

/-- filename.replace of backslashes by forward slashes (line 434). -/
def replaceBackslashes (s : String) : String :=
  String.mk (s.toList.map (fun ch => if ch = '\\' then '/' else ch))

def hexDigit (n : Nat) : Char :=
  if n < 10 then Char.ofNat (48 + n) else Char.ofNat (87 + n)

def byteHex (b : Nat) : List Char := [hexDigit (b / 16 % 16), hexDigit (b % 16)]

/-- autosummary.encode(utf-8).hex() of line 436. -/
def utf8Hex (s : String) : String :=
  String.mk (((s.toUTF8.data.toList).map (fun b => byteHex b.toNat)).flatten)

/-- Modelled from the spec and dissect.ntfs c_ntfs: the FILE_ATTRIBUTE
flag names used to decode the raw attribute bitmask into a symbolic
joined attribute-name list (line 438). -/
def FILE_ATTRIBUTE_NAMES : List (Nat × String) :=
  [(1, "READ_ONLY"),
   (2, "HIDDEN"),
   (4, "SYSTEM"),
   (16, "DIRECTORY"),
   (32, "ARCHIVE"),
   (64, "DEVICE"),
   (128, "NORMAL"),
   (256, "TEMPORARY"),
   (512, "SPARSE_FILE"),
   (1024, "REPARSE_POINT"),
   (2048, "COMPRESSED"),
   (4096, "OFFLINE"),
   (8192, "NOT_CONTENT_INDEXED"),
   (16384, "ENCRYPTED")]

def joinSep (sep : String) : List String → String
  | [] => ""
  | [s] => s
  | s :: rest => s ++ sep ++ joinSep sep rest

/-- Modelled from the spec: str(c_ntfs.FILE_ATTRIBUTE(n)) with the
FILE_ATTRIBUTE. prefixes stripped — the names of the set bits joined
together. -/
def fileAttributesString (n : Int) : String :=
  joinSep ("|")
    ((FILE_ATTRIBUTE_NAMES.filter (fun p => decide (n.toNat / p.1 % 2 = 1))).map
      (fun p => p.2))

/-- The filename conversion of lines 433-434: a present value must be a
str or the .replace attribute access fails. -/
def filenameField (v : Option EVal) : Except PyErr (Option String) :=
  match v with
  | none => .ok none
  | some .eNone => .ok none
  | some (.eStr s) => .ok (some (replaceBackslashes s))
  | some _ => .error .attributeError

/-- The autosummary conversion of lines 435-436. -/
def autosummaryField (v : Option EVal) : Except PyErr (Option String) :=
  match v with
  | none => .ok none
  | some .eNone => .ok none
  | some (.eStr s) => .ok (some (utf8Hex s))
  | some _ => .error .attributeError

/-- The fileattributes conversion of lines 437-438. -/
def fileattributesField (v : Option EVal) : Except PyErr (Option String) :=
  match v with
  | none => .ok none
  | some .eNone => .ok none
  | some (.eInt n) => .ok (some (fileAttributesString n))
  | some _ => .error .typeError

/-- The size conversion of lines 445-447: int.from_bytes needs bytes. -/
def sizeField (v : Option EVal) : Except PyErr (Option Int) :=
  match v with
  | none => .ok none
  | some .eNone => .ok none
  | some (.eBlob b) => .ok (some (Int.ofNat (intFromBytesLE b)))
  | some _ => .error .typeError

/-- The per-record classification of searchindex() (lines 415-459):
an emitted row whose System_ItemType equals ActivityHistoryItem yields
the activity record, anything else the file-information record; the
field conversions can raise and nothing here catches or logs. -/
def classifyRecord (record : List (String × EVal)) : Except PyErr OutRec :=
  if dictGet? record ("System_ItemType") = some (.eStr ("ActivityHistoryItem")) then
    .ok (.activity
      { workid := dictGet? record ("WorkID")
        starttime := dictGet? record ("System_ActivityHistory_StartTime")
        endtime := dictGet? record ("System_ActivityHistory_EndTime")
        appid := dictGet? record ("System_ActivityHistory_AppId")
        file_contenturi := dictGet? record ("System_Activity_ContentUri")
        description := dictGet? record ("System_Activity_Description")
        displaytext := dictGet? record ("System_Activity_DisplayText")
        itempathdisplay := dictGet? record ("System_ItemPathDisplay")
        systemitemtype := dictGet? record ("System_ItemType")
        latest := dictGet? record ("latest")
        checkpointindex := dictGet? record ("checkpointindex") })
  else
    match filenameField (dictGet? record ("System_ItemPathDisplay")) with
    | .error e => .error e
    | .ok filename =>
      match autosummaryField (dictGet? record ("System_Search_AutoSummary")) with
      | .error e => .error e
      | .ok autosummary =>
        match fileattributesField (dictGet? record ("System_FileAttributes")) with
        | .error e => .error e
        | .ok fileattributes =>
          match sizeField (dictGet? record ("System_Size")) with
          | .error e => .error e
          | .ok size =>
            .ok (.fileinfo
              { workid := dictGet? record ("WorkID")
                record_last_modified := dictGet? record ("LastModified")
                filename := filename
                gathertime := dictGet? record ("System_Search_GatherTime")
                sdid := dictGet? record ("SDID")
                size := size
                date_modified := dictGet? record ("System_DateModified")
                date_created := dictGet? record ("System_DateCreated")
                date_accessed := dictGet? record ("System_DateAccessed")
                owner := dictGet? record ("System_FileOwner")
                systemitemtype := dictGet? record ("System_ItemType")
                fileattributes := fileattributes
                autosummary := autosummary
                latest := dictGet? record ("latest")
                checkpointindex := dictGet? record ("checkpointindex") })

/-- The record loop of searchindex() over one database file: every
emitted row is classified in order; any exception aborts the whole
generator (there is no try/except around the loop). -/
def searchindexRecords : List (List (String × EVal)) → Except PyErr (List OutRec)
  | [] => .ok []
  | r :: rest =>
    match classifyRecord r with
    | .error e => .error e
    | .ok out =>
      match searchindexRecords rest with
      | .error e => .error e
      | .ok outs => .ok (out :: outs)

/-- The searchindex() export for one SQLite database file:
_get_sqlite_records followed by classification. -/
def searchindexPipeline (gatherRows : Option (List GthrRow))
    (metadataRows : List MetadataRow) (propstoreRows : List PropstoreRow)
    (db : Nat → PageRead) (walCheckpoints : Option (List Checkpoint)) :
    Except PyErr (List OutRec) :=
  match get_sqlite_records gatherRows metadataRows propstoreRows db walCheckpoints with
  | .error e => .error e
  | .ok rows => searchindexRecords rows

/-- C1: violated by the code at a concrete input. The emission loop of
_get_sqlite_records iterates range(max_id) (line 387) and thereby never
visits the WorkID equal to the maximum key of the two tables: with one
property-store row for WorkID 1 (the maximum) and a Gthr entry for
DocumentID 0, WorkID 1 retains one version stamped checkpoint 0 (first
conjunct) yet the emitted rows contain only the Gthr-only row for
WorkID 0 (second conjunct) and hence no row for WorkID 1 at all (third
conjunct) — in particular not exactly one version with latest = True. -/
theorem C1_max_workid_never_emitted :
    build_base (buildPropstoreMetadata [⟨10, "System.ItemPathDisplay"⟩])
        [⟨1, 10, .text ("foo")⟩]
      = .ok [(.int 1, [⟨[("System_ItemPathDisplay", DVal.vraw (.text ("foo")))], 0⟩])] ∧
    get_sqlite_records (some [⟨0, some ("f"), none, 1⟩]) [⟨10, "System.ItemPathDisplay"⟩]
        [⟨1, 10, .text ("foo")⟩] (fun _ => PageRead.missing) none
      = .ok [[("WorkID", EVal.eInt 0), ("FileName", EVal.eStr ("f")),
          ("LastModified", EVal.eNone), ("SDID", EVal.eInt 1)]] ∧
    List.filter (fun r => decide (dictGet? r ("WorkID") = some (EVal.eInt 1)))
        [[("WorkID", EVal.eInt 0), ("FileName", EVal.eStr ("f")),
          ("LastModified", EVal.eNone), ("SDID", EVal.eInt 1)]]
      = [] := by
  refine ⟨by decide, by decide, by decide⟩

/-- C2: the timeline builder behaves exactly as claimed — the base row
(WorkID 1, System_ItemPathDisplay, foo) plus a single checkpoint at
index 1 whose page differs by exactly (1, that column, bar) produce the
two retained versions {checkpoint 0, foo} (unmodified) and {checkpoint
1, bar} (first conjunct) — but the full reconstruction never emits any
version for WorkID 1, because WorkID 1 is the maximum key and
range(max_id) stops short of it: the output holds only the Gthr-only
row of DocumentID 0 (second conjunct), not the claimed two versions
with latest false and true. -/
theorem C2_two_versions_retained_but_dropped_at_emission :
    replayCheckpoints (buildPropstoreMetadata [⟨10, "System.ItemPathDisplay"⟩])
        (fun n => if n = 5
          then PageRead.ok [⟨[.int 1, .int 10, .text ("foo")], some 3⟩]
          else .missing)
        [(.int 1, [⟨[("System_ItemPathDisplay", DVal.vraw (.text ("foo")))], 0⟩])]
        [⟨1, [⟨5, .ok [⟨[.int 1, .int 10, .text ("bar")], some 3⟩]⟩]⟩]
      = .ok [(.int 1,
          [⟨[("System_ItemPathDisplay", DVal.vraw (.text ("foo")))], 0⟩,
           ⟨[("System_ItemPathDisplay", DVal.vraw (.text ("bar")))], 1⟩])] ∧
    get_sqlite_records (some [⟨0, none, none, 0⟩]) [⟨10, "System.ItemPathDisplay"⟩]
        [⟨1, 10, .text ("foo")⟩]
        (fun n => if n = 5
          then PageRead.ok [⟨[.int 1, .int 10, .text ("foo")], some 3⟩]
          else .missing)
        (some [⟨1, [⟨5, .ok [⟨[.int 1, .int 10, .text ("bar")], some 3⟩]⟩]⟩])
      = .ok [[("WorkID", EVal.eInt 0), ("FileName", EVal.eNone),
          ("LastModified", EVal.eNone), ("SDID", EVal.eInt 0)]] := by
  refine ⟨by decide, by decide⟩

/-- C3: a retained snapshot version is silently skipped with no failure:
WorkID 2 (the maximum key) has one retained version (first conjunct),
the whole pipeline returns ok — no exception is raised and the source
contains no logging in this path — yet the classified output holds only
the record of the Gthr-only WorkID 0 and no record for WorkID 2 (second
conjunct). -/
theorem C3_version_skipped_without_failure :
    build_base (buildPropstoreMetadata [⟨11, "System.Author"⟩]) [⟨2, 11, .text ("bar")⟩]
      = .ok [(.int 2, [⟨[("System_Author", DVal.vraw (.text ("bar")))], 0⟩])] ∧
    searchindexPipeline (some [⟨0, some ("g"), none, 3⟩]) [⟨11, "System.Author"⟩]
        [⟨2, 11, .text ("bar")⟩] (fun _ => PageRead.missing) none
      = .ok [.fileinfo
          { workid := some (.eInt 0), record_last_modified := some .eNone,
            filename := none, gathertime := none, sdid := some (.eInt 3), size := none,
            date_modified := none, date_created := none, date_accessed := none,
            owner := none, systemitemtype := none, fileattributes := none,
            autosummary := none, latest := none, checkpointindex := none }] := by
  refine ⟨by decide, by decide⟩

/-- C10: a Gthr-only WorkID below the maximum (DocumentID 0) is indeed
emitted as exactly one File Index Record whose latest and
checkpointindex are both None, as the claim states; but the Gthr-only
WorkID equal to the maximum observed ID (DocumentID 5) yields zero
records, so the universally quantified claim fails on the code. -/
theorem C10_gthr_only_record_fields :
    searchindexPipeline
        (some [⟨0, some ("a"), none, 1⟩, ⟨5, some ("b"), none, 2⟩])
        [⟨10, "System.ItemType"⟩] [⟨1, 10, .text ("x")⟩]
        (fun _ => PageRead.missing) none
      = .ok [.fileinfo
          { workid := some (.eInt 0), record_last_modified := some .eNone,
            filename := none, gathertime := none, sdid := some (.eInt 1), size := none,
            date_modified := none, date_created := none, date_accessed := none,
            owner := none, systemitemtype := none, fileattributes := none,
            autosummary := none, latest := none, checkpointindex := none },
          .fileinfo
          { workid := some (.eInt 1), record_last_modified := none,
            filename := none, gathertime := none, sdid := none, size := none,
            date_modified := none, date_created := none, date_accessed := none,
            owner := none, systemitemtype := some (.eStr ("x")), fileattributes := none,
            autosummary := none, latest := some (.eBool true),
            checkpointindex := some (.eInt 0) }] ∧
    List.filter
        (fun r => match r with
          | OutRec.fileinfo fr => decide (fr.workid = some (EVal.eInt 5))
          | OutRec.activity ar => decide (ar.workid = some (EVal.eInt 5)))
        [OutRec.fileinfo
          { workid := some (.eInt 0), record_last_modified := some .eNone,
            filename := none, gathertime := none, sdid := some (.eInt 1), size := none,
            date_modified := none, date_created := none, date_accessed := none,
            owner := none, systemitemtype := none, fileattributes := none,
            autosummary := none, latest := none, checkpointindex := none },
          .fileinfo
          { workid := some (.eInt 1), record_last_modified := none,
            filename := none, gathertime := none, sdid := none, size := none,
            date_modified := none, date_created := none, date_accessed := none,
            owner := none, systemitemtype := some (.eStr ("x")), fileattributes := none,
            autosummary := none, latest := some (.eBool true),
            checkpointindex := some (.eInt 0) }]
      = [] := by
  refine ⟨by decide, by decide⟩

/-- One row of the metadata table as search.py reads it (Id plus
UniqueKey, e.g. 15F-System_DateModified). -/
structure SearchMetadataRow where
  Id : Int
  UniqueKey : String
  deriving DecidableEq, Repr

/-- The characters after the first dash, if any. -/
def afterFirstDash : List Char → Option (List Char)
  | [] => none
  | c :: rest => if c = '-' then some rest else afterFirstDash rest

/-- UniqueKey.split(dash, maxsplit=1)[-1] of search.py line 184. -/
def splitDashTail (s : String) : String :=
  match afterFirstDash s.toList with
  | none => s
  | some l => String.mk l

/-- The column catalog of parse_sqlite (search.py lines 183-186). -/
def searchColumns (rows : List SearchMetadataRow) : List (Int × String) :=
  rows.foldl (fun m r => dictSet m r.Id (splitDashTail r.UniqueKey)) []

/-- One iteration of the property-store aggregation loop of
parse_sqlite (search.py lines 194-202): the column name falls back to
str(column_id) when the ColumnId is not in the catalog, and the raw
value is stored without decoding. -/
def parse_sqlite_step (columns : List (Int × String))
    (records : List (Int × List (String × EVal))) (row : Int × Int × SVal) :
    List (Int × List (String × EVal)) :=
  match dictGet? records row.1 with
  | none =>
    dictSet records row.1
      [(dictGetD columns row.2.1 (toString row.2.1), EVal.ofSVal row.2.2),
       ("checkpoint", .eInt 0)]
  | some props =>
    dictSet records row.1
      (dictSet props (dictGetD columns row.2.1 (toString row.2.1)) (EVal.ofSVal row.2.2))

/-- The whole base aggregation of parse_sqlite. -/
def parse_sqlite_records (columns : List (Int × String))
    (rows : List (Int × Int × SVal)) : List (Int × List (String × EVal)) :=
  rows.foldl (parse_sqlite_step columns) []

/-- One WAL diff row merged by parse_sqlite (search.py lines 208-215):
again the stringified numeric ColumnID is the fallback name, and the
checkpoint stamp is refreshed. -/
def parse_sqlite_wal_row (columns : List (Int × String))
    (records : List (Int × List (String × EVal))) (cpIndex : Int)
    (row : Int × Int × SVal) : List (Int × List (String × EVal)) :=
  match dictGet? records row.1 with
  | none =>
    dictSet records row.1
      [(dictGetD columns row.2.1 (toString row.2.1), EVal.ofSVal row.2.2),
       ("checkpoint", .eInt cpIndex)]
  | some props =>
    dictSet records row.1
      (dictSet (dictSet props (dictGetD columns row.2.1 (toString row.2.1))
        (EVal.ofSVal row.2.2)) ("checkpoint") (.eInt cpIndex))

/-- A WorkID whose snapshot dict has the given property key present. -/
def PropPresent (records : List (Int × List (String × EVal))) (w : Int)
    (key : String) : Prop :=
  ∃ props, dictGet? records w = some props ∧ (dictGet? props key).isSome

theorem parse_sqlite_step_pres {columns : List (Int × String)}
    {records : List (Int × List (String × EVal))} {w : Int} {key : String}
    (row : Int × Int × SVal) (hp : PropPresent records w key) :
    PropPresent (parse_sqlite_step columns records row) w key := by
  obtain ⟨props, hg, hk⟩ := hp
  rw [parse_sqlite_step]
  by_cases hw : row.1 = w
  · rw [hw, hg]
    exact ⟨dictSet props (dictGetD columns row.2.1 (toString row.2.1)) (EVal.ofSVal row.2.2),
      dictGet?_dictSet_self _ _ _, dictSet_preserves_some _ _ hk⟩
  · rcases hr : dictGet? records row.1 with _ | props₂
    · exact ⟨props, by rw [dictGet?_dictSet_ne _ _ (fun hc => hw hc.symm)]; exact hg, hk⟩
    · exact ⟨props, by rw [dictGet?_dictSet_ne _ _ (fun hc => hw hc.symm)]; exact hg, hk⟩

theorem parse_sqlite_step_self {columns : List (Int × String)}
    {records : List (Int × List (String × EVal))} {w cid : Int} {v : SVal}
    (hunk : dictGet? columns cid = none) :
    PropPresent (parse_sqlite_step columns records (w, cid, v)) w (toString cid) := by
  rw [parse_sqlite_step]
  rcases hr : dictGet? records w with _ | props
  · refine ⟨_, dictGet?_dictSet_self _ _ _, ?_⟩
    rw [show dictGetD columns (w, cid, v).2.1 (toString (w, cid, v).2.1)
        = toString cid from by rw [dictGetD, hunk]; rfl]
    rw [dictGet?, if_pos rfl]
    rfl
  · refine ⟨_, dictGet?_dictSet_self _ _ _, ?_⟩
    rw [show dictGetD columns (w, cid, v).2.1 (toString (w, cid, v).2.1)
        = toString cid from by rw [dictGetD, hunk]; rfl]
    rw [dictGet?_dictSet_self]
    rfl

theorem parse_sqlite_foldl_pres {columns : List (Int × String)} {w : Int} {key : String}
    (rows : List (Int × Int × SVal)) {records : List (Int × List (String × EVal))}
    (hp : PropPresent records w key) :
    PropPresent (rows.foldl (parse_sqlite_step columns) records) w key := by
  induction rows generalizing records with
  | nil => exact hp
  | cons r rest ih => exact ih (parse_sqlite_step_pres r hp)

/-- C4 (amended): in the parse_sqlite of search.py, every property-store
row whose ColumnID is not in the column catalog is retained in its
WorkID snapshot under the stringified numeric ColumnID, and a WAL diff
row with an unknown ColumnID is likewise retained; the searchindex.py
variant instead drops such rows (see the counterexample). -/
theorem C4_unknown_column_retained_in_search_py (columns : List (Int × String))
    (rows : List (Int × Int × SVal)) (w cid : Int) (v : SVal)
    (records₂ : List (Int × List (String × EVal))) (cpIndex : Int)
    (hmem : (w, cid, v) ∈ rows) (hunk : dictGet? columns cid = none) :
    PropPresent (parse_sqlite_records columns rows) w (toString cid) ∧
    PropPresent (parse_sqlite_wal_row columns records₂ cpIndex (w, cid, v)) w
      (toString cid) := by
  constructor
  · obtain ⟨l₁, l₂, rfl⟩ := List.append_of_mem hmem
    rw [parse_sqlite_records, List.foldl_append, List.foldl_cons]
    exact parse_sqlite_foldl_pres l₂ (parse_sqlite_step_self hunk)
  · rw [parse_sqlite_wal_row]
    rcases hr : dictGet? records₂ w with _ | props
    · refine ⟨_, dictGet?_dictSet_self _ _ _, ?_⟩
      rw [show dictGetD columns (w, cid, v).2.1 (toString (w, cid, v).2.1)
          = toString cid from by rw [dictGetD, hunk]; rfl]
      rw [dictGet?, if_pos rfl]
      rfl
    · refine ⟨_, dictGet?_dictSet_self _ _ _, ?_⟩
      by_cases hchk : toString cid = "checkpoint"
      · rw [hchk, dictGet?_dictSet_self]
        rfl
      · rw [dictGet?_dictSet_ne _ _ hchk]
        rw [show dictGetD columns (w, cid, v).2.1 (toString (w, cid, v).2.1)
            = toString cid from by rw [dictGetD, hunk]; rfl]
        rw [dictGet?_dictSet_self]
        rfl

/-- Witness for C4 (amended) at a concrete unknown ColumnID. -/
theorem C4_unknown_column_retained_in_search_py_witness :
    PropPresent (parse_sqlite_records [(10, "System_Author")]
      [(1, 99, SVal.text ("v"))]) 1 (toString (99 : Int)) ∧
    PropPresent (parse_sqlite_wal_row [(10, "System_Author")] [] 7
      (1, 99, SVal.text ("v"))) 1 (toString (99 : Int)) :=
  C4_unknown_column_retained_in_search_py [(10, "System_Author")]
    [(1, 99, SVal.text ("v"))] 1 99 (SVal.text ("v")) [] 7 (by decide) (by decide)

/-- C4 counterexample: in searchindex.py the same situation silently
drops the row. One property-store row with ColumnId 99 not in the
catalog (which holds only Id 10) produces an empty aggregated state:
no snapshot exists at all for WorkID 1, so the value is not retained
under the key 99 as the claim states. -/
theorem C4_unknown_column_dropped_in_searchindex_py :
    build_base (buildPropstoreMetadata [⟨10, "System.Author"⟩])
      [⟨1, 99, .text ("v")⟩] = .ok [] := by decide

/-- C8 counterexample: each conjunct falsifies one part of the claim at
a concrete input. (1) The absence of the Windows-gather.db file does
not surface as a skip of the database file — _get_sqlite_records opens
it unconditionally (searchindex.py line 243, no existence check), so
the modelled FileNotFoundError escapes the whole searchindex() export
uncaught. (2) A failure local to a single row escalates beyond that
row: one Gthr row whose LastModified is out of wintimestamp range
(lines 252-253 carry no try/except) aborts extraction of the whole
file, losing even the earlier good row. (3) A failure local to a
single checkpoint escalates beyond that checkpoint: one undecodable
diff row in checkpoint 1 (a non-bytes value in a datetime column,
line 358 catches only ValueError) aborts the whole file although
checkpoint 2 is fine — conjunct (4) shows checkpoint 2 alone would
have replayed successfully, so processing did not continue with the
next index. -/
theorem C8_local_failures_escalate :
    searchindexPipeline none [] [] (fun _ => PageRead.missing) none
      = .error .fileNotFound ∧
    get_sqlite_records
        (some [⟨0, some ("g"), none, 1⟩,
               ⟨1, none, some [255, 255, 255, 255, 255, 255, 255, 255, 255], 2⟩])
        [] [] (fun _ => PageRead.missing) none
      = .error .valueError ∧
    searchindexPipeline (some [⟨0, none, none, 0⟩]) [⟨10, "System.DateModified"⟩] []
        (fun _ => PageRead.missing)
        (some [⟨1, [⟨5, .ok [⟨[.int 1, .int 10, .int 5], some 3⟩]⟩]⟩,
               ⟨2, [⟨6, .ok [⟨[.int 1, .int 10, .blob [0]], some 3⟩]⟩]⟩])
      = .error .typeError ∧
    replayCheckpoints (buildPropstoreMetadata [⟨10, "System.DateModified"⟩])
        (fun _ => PageRead.missing) []
        [⟨2, [⟨6, .ok [⟨[.int 1, .int 10, .blob [0]], some 3⟩]⟩]⟩]
      = .ok [(.int 1, [⟨[("System_DateModified", DVal.vdt 0)], 2⟩])] := by
  refine ⟨rfl, by decide, by decide, by decide⟩

/-- C8 (amended): failures local to a single page inside the WAL
differencer are contained within that frame — an invalid or missing
checkpoint page contributes no diffs and a missing or invalid base
page merely counts every checkpoint cell of that frame as changed,
the remaining frames processed unchanged — but failures local to a
single row or a single checkpoint escalate beyond their unit and abort
extraction of the whole database file: an out-of-range LastModified in
one Gthr row stops the aggregation before the remaining rows, an
undecodable diff row stops the checkpoint loop before the remaining
rows, a failing checkpoint stops the replay before the remaining
checkpoints, and the total absence of the Windows-gather.db file
escapes the parser and the searchindex() export as an uncaught
exception rather than being surfaced as a skip. -/
theorem C8_failure_containment (db db₂ : Nat → PageRead) (f g : Frame) (rest : List Frame)
    (metadataRows : List MetadataRow) (propstoreRows : List PropstoreRow)
    (walCheckpoints : Option (List Checkpoint))
    (row : GthrRow) (b : List Nat) (acc : List (Int × List (String × EVal)))
    (restRows : List GthrRow) (metadata : List (Int × String)) (diffRow : List SVal)
    (diffRest : List (List SVal)) (c : Int) (s : TimelineState) (e e₂ : PyErr)
    (cp : Checkpoint) (cps : List Checkpoint)
    (hf : f.page = PageRead.invalid ∨ f.page = PageRead.missing)
    (hg : db g.page_number = PageRead.invalid ∨ db g.page_number = PageRead.missing)
    (hrow : row.LastModified = some b) (hb : ¬ intFromBytesLE b ≤ winTsMaxTicks)
    (hres : resolveRow metadata diffRow = .error e)
    (hcp : processCheckpointRows metadata cp.index s
      (get_changes_between_db_and_checkpoint db₂ cp) = .error e₂) :
    diffFrames db (f :: rest) = diffFrames db rest ∧
    diffFrames db (g :: rest) = checkpointCellValues g.page ++ diffFrames db rest ∧
    searchindexPipeline none metadataRows propstoreRows db walCheckpoints
      = .error .fileNotFound ∧
    buildGthrAux acc (row :: restRows) = .error .valueError ∧
    processCheckpointRows metadata c s (diffRow :: diffRest) = .error e ∧
    replayCheckpoints metadata db₂ s (cp :: cps) = .error e₂ := by
  refine ⟨?_, ?_, rfl, ?_, ?_, ?_⟩
  · rcases hf with hf | hf
    all_goals rw [diffFrames, diffFrame, hf]
    all_goals rfl
  · rw [diffFrames, diffFrame]
    rcases hg with hg | hg
    all_goals rw [hg]
    all_goals
      congr 1
      refine List.filter_eq_self.mpr ?_
      intro v hv
      simp [dbCellValues]
  · simp only [buildGthrAux, hrow, wintimestamp, if_neg hb]
  · simp only [processCheckpointRows, hres]
  · simp only [replayCheckpoints, hcp]

/-- Witness for C8 (amended) at concrete frames, rows and checkpoints. -/
theorem C8_failure_containment_witness :
    diffFrames (fun _ => PageRead.missing)
        [⟨1, PageRead.invalid⟩, ⟨2, .ok [⟨[.int 4], some 1⟩]⟩]
      = diffFrames (fun _ => PageRead.missing) [⟨2, .ok [⟨[.int 4], some 1⟩]⟩] ∧
    diffFrames (fun _ => PageRead.missing)
        [⟨3, .ok [⟨[.int 9], some 1⟩]⟩, ⟨2, .ok [⟨[.int 4], some 1⟩]⟩]
      = checkpointCellValues (PageRead.ok [⟨[.int 9], some 1⟩]) ++
        diffFrames (fun _ => PageRead.missing) [⟨2, .ok [⟨[.int 4], some 1⟩]⟩] ∧
    searchindexPipeline none [] [] (fun _ => PageRead.missing) none
      = .error .fileNotFound ∧
    buildGthrAux []
        [⟨1, none, some [255, 255, 255, 255, 255, 255, 255, 255, 255], 2⟩,
         ⟨7, some ("h"), none, 3⟩]
      = .error .valueError ∧
    processCheckpointRows [(10, "System_DateModified")] 1 []
        ([.int 1, .int 10, .int 5] :: [[.int 2, .int 10, .blob [0]]])
      = .error .typeError ∧
    replayCheckpoints [(10, "System_DateModified")] (fun _ => PageRead.missing) []
        (⟨1, [⟨5, .ok [⟨[.int 1, .int 10, .int 5], some 3⟩]⟩]⟩ ::
          [⟨2, [⟨6, .ok [⟨[.int 1, .int 10, .blob [0]], some 3⟩]⟩]⟩])
      = .error .typeError :=
  C8_failure_containment (fun _ => PageRead.missing) (fun _ => PageRead.missing)
    ⟨1, PageRead.invalid⟩ ⟨3, .ok [⟨[.int 9], some 1⟩]⟩ [⟨2, .ok [⟨[.int 4], some 1⟩]⟩]
    [] [] none
    ⟨1, none, some [255, 255, 255, 255, 255, 255, 255, 255, 255], 2⟩
    [255, 255, 255, 255, 255, 255, 255, 255, 255] [] [⟨7, some ("h"), none, 3⟩]
    [(10, "System_DateModified")] [.int 1, .int 10, .int 5] [[.int 2, .int 10, .blob [0]]]
    1 [] PyErr.typeError PyErr.typeError
    ⟨1, [⟨5, .ok [⟨[.int 1, .int 10, .int 5], some 3⟩]⟩]⟩
    [⟨2, [⟨6, .ok [⟨[.int 1, .int 10, .blob [0]], some 3⟩]⟩]⟩]
    (Or.inl rfl) (Or.inr rfl) rfl (by decide) (by decide) (by decide)

/-- The characters before and after the last dot of a file name. -/
def splitLastDot : List Char → Option (List Char × List Char)
  | [] => none
  | c :: rest =>
    match splitLastDot rest with
    | some (b, a) => some (c :: b, a)
    | none => if c = '.' then some ([], rest) else none

/-- Modelled from pathlib: PurePath.suffix — the extension of the final
component, empty when the last dot is the first character or the last
character of the name. -/
def pathSuffix (name : List Char) : List Char :=
  match splitLastDot name with
  | some (b, a) => if b ≠ [] ∧ a ≠ [] then '.' :: a else []
  | none => []

theorem splitLastDot_append {name b a : List Char} (h : splitLastDot name = some (b, a)) :
    name = b ++ '.' :: a := by
  induction name generalizing b a with
  | nil => cases h
  | cons c rest ih =>
    rw [splitLastDot] at h
    rcases hs : splitLastDot rest with _ | ba
    · rw [hs] at h
      by_cases hc : c = '.'
      · rw [if_pos hc] at h
        injection h with h
        cases h
        rw [hc]
        rfl
      · rw [if_neg hc] at h
        cases h
    · obtain ⟨b₂, a₂⟩ := ba
      rw [hs] at h
      injection h with h
      cases h
      rw [ih hs]
      rfl

theorem pathSuffix_suffix {name s : List Char} (h : pathSuffix name = s) :
    s = [] ∨ s <:+ name := by
  rw [pathSuffix] at h
  rcases hs : splitLastDot name with _ | ba
  · simp only [hs] at h
    exact Or.inl h.symm
  · obtain ⟨b, a⟩ := ba
    simp only [hs] at h
    by_cases hcond : b ≠ [] ∧ a ≠ []
    · rw [if_pos hcond] at h
      refine Or.inr ?_
      rw [← h, splitLastDot_append hs]
      exact ⟨b, rfl⟩
    · rw [if_neg hcond] at h
      exact Or.inl h.symm

theorem pathSuffix_ne_of_not_suffix {name s : List Char} (h : ¬ s <:+ name)
    (hs : s ≠ []) : pathSuffix name ≠ s := by
  intro hc
  rcases pathSuffix_suffix hc with h₂ | h₂
  · exact hs h₂
  · exact h h₂

/-- The per-file dispatch of search() (search.py lines 149-157): an
.edb suffix goes to the EseDB parser, a .db suffix to the SQLite
parser, and anything else logs one warning for that file and yields
nothing; the parsers are parameters since only the dispatch is at
stake. The second component collects the warned-about file names. -/
def searchFile {α : Type} (parse_esedb parse_sqlite : List Char → List α)
    (name : List Char) : List α × List (List Char) :=
  if pathSuffix name = (".edb").toList then (parse_esedb name, [])
  else if pathSuffix name = (".db").toList then (parse_sqlite name, [])
  else ([], [name])

/-- search() over the discovered database files, in order. -/
def searchAll {α : Type} (parse_esedb parse_sqlite : List Char → List α) :
    List (List Char) → List α × List (List Char)
  | [] => ([], [])
  | name :: rest =>
    ((searchFile parse_esedb parse_sqlite name).1 ++
        (searchAll parse_esedb parse_sqlite rest).1,
      (searchFile parse_esedb parse_sqlite name).2 ++
        (searchAll parse_esedb parse_sqlite rest).2)

theorem searchAll_append {α : Type} (pe ps : List Char → List α)
    (l₁ l₂ : List (List Char)) :
    searchAll pe ps (l₁ ++ l₂)
      = ((searchAll pe ps l₁).1 ++ (searchAll pe ps l₂).1,
         (searchAll pe ps l₁).2 ++ (searchAll pe ps l₂).2) := by
  induction l₁ with
  | nil => rfl
  | cons name rest ih =>
    rw [List.cons_append, searchAll, ih, searchAll]
    rw [List.append_assoc, List.append_assoc]

/-- C9: a discovered database file whose name ends in neither .edb nor
.db yields zero records and exactly one logged warning, no exception
escapes (the dispatch is total), and every other discovered file
contributes exactly what it would contribute without it; moreover every
entry of the searchindex.py FILES list ends in .edb or .db, so that
plugin never discovers such a file at all. -/
theorem C9_unknown_extension_single_warning {α : Type}
    (pe ps : List Char → List α) (name : List Char) (l₁ l₂ : List (List Char))
    (h1 : ¬ (".edb").toList <:+ name) (h2 : ¬ (".db").toList <:+ name) :
    searchFile pe ps name = ([], [name]) ∧
    (searchAll pe ps (l₁ ++ name :: l₂)).1
      = (searchAll pe ps l₁).1 ++ (searchAll pe ps l₂).1 ∧
    (searchAll pe ps (l₁ ++ name :: l₂)).2
      = (searchAll pe ps l₁).2 ++ name :: (searchAll pe ps l₂).2 ∧
    ∀ fname ∈ FILES, (".edb").toList <:+ fname.toList ∨ (".db").toList <:+ fname.toList := by
  have hfile : searchFile pe ps name = ([], [name]) := by
    rw [searchFile, if_neg (pathSuffix_ne_of_not_suffix h1 (by decide)),
      if_neg (pathSuffix_ne_of_not_suffix h2 (by decide))]
  refine ⟨hfile, ?_, ?_, by decide⟩
  · rw [searchAll_append, searchAll, hfile]
    rfl
  · rw [searchAll_append, searchAll, hfile]
    rfl

/-- Witness for C9 at a concrete .xdb file between two recognized
files. -/
theorem C9_unknown_extension_single_warning_witness :
    searchFile (fun _ => ([3] : List Nat)) (fun _ => [4]) (("Windows.xdb").toList)
      = ([], [("Windows.xdb").toList]) ∧
    (searchAll (fun _ => ([3] : List Nat)) (fun _ => [4])
        ([("a.edb").toList] ++ ("Windows.xdb").toList :: [("b.db").toList])).1
      = (searchAll (fun _ => ([3] : List Nat)) (fun _ => [4]) [("a.edb").toList]).1 ++
        (searchAll (fun _ => ([3] : List Nat)) (fun _ => [4]) [("b.db").toList]).1 ∧
    (searchAll (fun _ => ([3] : List Nat)) (fun _ => [4])
        ([("a.edb").toList] ++ ("Windows.xdb").toList :: [("b.db").toList])).2
      = (searchAll (fun _ => ([3] : List Nat)) (fun _ => [4]) [("a.edb").toList]).2 ++
        ("Windows.xdb").toList ::
          (searchAll (fun _ => ([3] : List Nat)) (fun _ => [4]) [("b.db").toList]).2 ∧
    ∀ fname ∈ FILES, (".edb").toList <:+ fname.toList ∨ (".db").toList <:+ fname.toList :=
  C9_unknown_extension_single_warning (fun _ => [3]) (fun _ => [4])
    (("Windows.xdb").toList) [("a.edb").toList] [("b.db").toList]
    (by decide) (by decide)

end SearchIdx
